import Mathlib

/-!
Verification of the multi-tier hybrid retrieval core
(`src/retrieval/hybrid_search.py`, `bm25_search.py`, `vector_store.py`,
`reranker.py`) against its natural-language specification.

Scores are modelled as rationals.  Python dictionaries keyed by document id
are modelled as insertion-ordered association lists (a key is updated in
place, a fresh key is appended), which matches CPython dict semantics.
External collaborators (the embedding provider, the ChromaDB collection, the
BM25Okapi scorer, the cross-encoder model) are modelled as parameters or as
small state machines following their documented interface.
-/

/-- Metadata values: the retrieval core only ever stores strings and numbers
in the metadata mappings it touches. -/
inductive MetaVal where
  | s (v : String)
  | q (v : Rat)
deriving DecidableEq

/-- A metadata mapping: insertion-ordered association list, as a Python dict. -/
abbrev Metadata := List (String × MetaVal)

/-- Python `metadata.get(k)` (`None` for a missing key). -/
def mget (m : Metadata) (k : String) : Option MetaVal :=
  (m.find? (fun p => p.1 == k)).map (fun p => p.2)

/-- Python `metadata.get(k, "")` specialised to string values: a missing key
or a non-string value reads as the empty string (which is falsy). -/
def mgetStr (m : Metadata) (k : String) : String :=
  match mget m k with
  | some (MetaVal.s v) => v
  | _ => ""

/-- Python `metadata[k] = v`: replace in place if the key is present,
append otherwise. -/
def minsert (m : Metadata) (k : String) (v : MetaVal) : Metadata :=
  if m.any (fun p => p.1 == k) then
    m.map (fun p => if p.1 == k then (k, v) else p)
  else
    m ++ [(k, v)]

/-- `MatchTier` from `hybrid_search.py`. -/
inductive MatchTier where
  | EQUIPMENT_SPECIFIC
  | EQUIPMENT_TYPE
  | GENERIC
  | SEMANTIC
deriving DecidableEq

/-- `RetrievalResult` dataclass from `hybrid_search.py`. -/
structure RetrievalResult where
  id : String
  content : String
  metadata : Metadata
  dense_score : Rat := 0
  sparse_score : Rat := 0
  rrf_score : Rat := 0
  boosted_score : Rat := 0
  dense_rank : Int := 0
  sparse_rank : Int := 0
  match_tier : MatchTier := MatchTier.SEMANTIC
deriving DecidableEq

/-- A search-result dict as produced by `VectorStore.search` /
`BM25Search.search`: id, content, metadata and a score.  The `rank` field is
set by the BM25 side only (dense results leave it 0); the fusion code never
reads it, it uses enumeration order. -/
structure SearchHit where
  id : String
  content : String
  metadata : Metadata
  score : Rat
  rank : Nat := 0
deriving DecidableEq

/-- The retrieval-relevant configuration attributes held by a `HybridSearch`
instance (copied from `settings.retrieval` in `__init__`). -/
structure Settings where
  rrf_k : Rat
  equipment_specific_boost : Rat
  equipment_type_boost : Rat
  generic_boost : Rat
  universal_boost : Rat
deriving DecidableEq

/-- Python truthiness of an `Optional[str]`: present and non-empty. -/
def hasVal : Option String → Bool
  | some s => s ≠ ""
  | none => false

/-! ### Stable descending sort

Python `sorted(xs, key=key, reverse=True)` is a stable descending sort.
Insertion sort where a new element is placed before the first strictly
smaller key reproduces it and is structurally recursive. -/

/-- Insert `a` before the first element whose key is strictly smaller. -/
def insertByDesc {α : Type} (key : α → Rat) (a : α) : List α → List α
  | [] => [a]
  | b :: l => if key b ≤ key a then a :: b :: l else b :: insertByDesc key a l

/-- Stable descending sort by a rational key. -/
def sortByDesc {α : Type} (key : α → Rat) : List α → List α
  | [] => []
  | a :: l => insertByDesc key a (sortByDesc key l)

/-! ### RRF fusion (`HybridSearch.rrf_score`, `HybridSearch._combine_results`) -/

/-- `HybridSearch.rrf_score`: `0` for rank `≤ 0`, else `1 / (rrf_k + rank)`. -/
def rrfScore (k : Rat) (rank : Int) : Rat :=
  if rank ≤ 0 then 0 else 1 / (k + (rank : Rat))

/-- Record the dense score and rank on an entry (body of the dense loop in
`_combine_results`). -/
def setDense (hit : SearchHit) (rank : Int) (r : RetrievalResult) : RetrievalResult :=
  { r with dense_score := hit.score, dense_rank := rank }

/-- Record the sparse score and rank on an entry (body of the sparse loop in
`_combine_results`). -/
def setSparse (hit : SearchHit) (rank : Int) (r : RetrievalResult) : RetrievalResult :=
  { r with sparse_score := hit.score, sparse_rank := rank }

/-- A fresh `RetrievalResult` made from a hit (the `combined[doc_id] =
RetrievalResult(id=..., content=..., metadata=...)` constructor call). -/
def freshEntry (hit : SearchHit) : RetrievalResult :=
  { id := hit.id, content := hit.content, metadata := hit.metadata }

/-- One iteration of the dense loop in `_combine_results`: create the entry
if the id is new, then set its dense score and rank. -/
def upsertDense (combined : List RetrievalResult) (hit : SearchHit) (rank : Int) :
    List RetrievalResult :=
  if combined.any (fun r => r.id == hit.id) then
    combined.map (fun r => if r.id == hit.id then setDense hit rank r else r)
  else
    combined ++ [setDense hit rank (freshEntry hit)]

/-- One iteration of the sparse loop in `_combine_results`. -/
def upsertSparse (combined : List RetrievalResult) (hit : SearchHit) (rank : Int) :
    List RetrievalResult :=
  if combined.any (fun r => r.id == hit.id) then
    combined.map (fun r => if r.id == hit.id then setSparse hit rank r else r)
  else
    combined ++ [setSparse hit rank (freshEntry hit)]

/-- The dense loop: `for rank, result in enumerate(dense_results, 1)`. -/
def processDense : List RetrievalResult → Int → List SearchHit → List RetrievalResult
  | combined, _, [] => combined
  | combined, rank, h :: hs => processDense (upsertDense combined h rank) (rank + 1) hs

/-- The sparse loop: `for rank, result in enumerate(sparse_results, 1)`. -/
def processSparse : List RetrievalResult → Int → List SearchHit → List RetrievalResult
  | combined, _, [] => combined
  | combined, rank, h :: hs => processSparse (upsertSparse combined h rank) (rank + 1) hs

/-- The final RRF pass in `_combine_results`. -/
def fuse (k : Rat) (r : RetrievalResult) : RetrievalResult :=
  { r with
    rrf_score :=
      (if r.dense_rank > 0 then rrfScore k r.dense_rank else 0) +
      (if r.sparse_rank > 0 then rrfScore k r.sparse_rank else 0) }

/-- `HybridSearch._combine_results`, returning the combined dict's values in
insertion order. -/
def combineResults (k : Rat) (dense sparse : List SearchHit) : List RetrievalResult :=
  (processSparse (processDense [] 1 dense) 1 sparse).map (fuse k)

/-! ### Characterisation of `_combine_results` -/

/-- 1-indexed rank (starting at `n`) of the first hit with the given id,
`0` when absent. -/
def rankOfAux : Int → List SearchHit → String → Int
  | _, [], _ => 0
  | n, h :: hs, i => if h.id == i then n else rankOfAux (n + 1) hs i

/-- Raw score of the first hit with the given id, `0` when absent. -/
def scoreOf : List SearchHit → String → Rat
  | [], _ => 0
  | h :: hs, i => if h.id == i then h.score else scoreOf hs i

/-- The entries the dense loop creates from an all-fresh hit list. -/
def buildDense : Int → List SearchHit → List RetrievalResult
  | _, [] => []
  | n, h :: hs => setDense h n (freshEntry h) :: buildDense (n + 1) hs

/-- Effect of the whole sparse loop on one already-present entry. -/
def sparseUpdAux : Int → List SearchHit → RetrievalResult → RetrievalResult
  | _, [], r => r
  | n, h :: hs, r => if h.id == r.id then setSparse h n r else sparseUpdAux (n + 1) hs r

/-- The entries the sparse loop appends for ids not among `ids`. -/
def freshSparse : Int → List String → List SearchHit → List RetrievalResult
  | _, _, [] => []
  | n, ids, h :: hs =>
    if h.id ∈ ids then freshSparse (n + 1) ids hs
    else setSparse h n (freshEntry h) :: freshSparse (n + 1) ids hs

/-! ### Tier classification and boosting (`_determine_tier`, `_apply_tier_boost`) -/

/-- Python `str.upper()` (character-wise, as Lean `Char.toUpper`); defined
over the character list so that it reduces inside the kernel. -/
def pyUpper (s : String) : String := String.mk (s.data.map Char.toUpper)

/-- Python `str.lower()` (character-wise, as Lean `Char.toLower`). -/
def pyLower (s : String) : String := String.mk (s.data.map Char.toLower)

/-- `HybridSearch._determine_tier`: four rules evaluated in order, first
match wins.  `job_equipment_tag and metadata.get("equipment_tag")` is Python
truthiness (present and non-empty), the tag comparison is case-insensitive
via `.upper()`, the type comparison via `.lower()`. -/
def determineTier (jobTag jobType : Option String) (r : RetrievalResult) : MatchTier :=
  if hasVal jobTag = true ∧ mgetStr r.metadata "equipment_tag" ≠ "" ∧
      pyUpper (mgetStr r.metadata "equipment_tag") = pyUpper (jobTag.getD "") then
    MatchTier.EQUIPMENT_SPECIFIC
  else if hasVal jobType = true ∧ mgetStr r.metadata "equipment_type" ≠ "" ∧
      pyLower (mgetStr r.metadata "equipment_type") = pyLower (jobType.getD "") then
    MatchTier.EQUIPMENT_TYPE
  else if pyLower (mgetStr r.metadata "lesson_scope") = "universal" then
    MatchTier.GENERIC
  else if pyLower (mgetStr r.metadata "lesson_scope") = "generic" then
    MatchTier.GENERIC
  else
    MatchTier.SEMANTIC

/-- `HybridSearch._apply_tier_boost`: boost = 1.0, overridden by the if/elif
chain on the tier; the GENERIC branch picks `universal_boost` or
`generic_boost` by the document's `lesson_scope`. -/
def applyTierBoost (st : Settings) (r : RetrievalResult) : Rat :=
  let boost : Rat :=
    if r.match_tier = MatchTier.EQUIPMENT_SPECIFIC then st.equipment_specific_boost
    else if r.match_tier = MatchTier.EQUIPMENT_TYPE then st.equipment_type_boost
    else if r.match_tier = MatchTier.GENERIC then
      if pyLower (mgetStr r.metadata "lesson_scope") = "universal" then st.universal_boost
      else st.generic_boost
    else 1
  r.rrf_score * boost

/-- Tier-1 tagging in `multi_tier_search`: set the tier and boost the fused
score by `equipment_specific_boost`. -/
def tagES (st : Settings) (r : RetrievalResult) : RetrievalResult :=
  { r with match_tier := MatchTier.EQUIPMENT_SPECIFIC,
           boosted_score := r.rrf_score * st.equipment_specific_boost }

/-- Tier-2 tagging in `multi_tier_search`. -/
def tagET (st : Settings) (r : RetrievalResult) : RetrievalResult :=
  { r with match_tier := MatchTier.EQUIPMENT_TYPE,
           boosted_score := r.rrf_score * st.equipment_type_boost }

/-- Tier-3 tagging in `multi_tier_search` (always `universal_boost`). -/
def tagGEN (st : Settings) (r : RetrievalResult) : RetrievalResult :=
  { r with match_tier := MatchTier.GENERIC,
           boosted_score := r.rrf_score * st.universal_boost }

/-- Tier-4 tagging in `multi_tier_search`: no boost for semantic. -/
def tagSEM (r : RetrievalResult) : RetrievalResult :=
  { r with match_tier := MatchTier.SEMANTIC, boosted_score := r.rrf_score }

/-! ### Lexical index (`bm25_search.py`) and dense index (`vector_store.py`) -/

/-- A lowercase-ASCII letter or digit, the character class `[a-z0-9]` of the
tokenizer's regex (the text has been lowercased first). -/
def isTokChar (c : Char) : Bool :=
  (decide ('a' ≤ c) && decide (c ≤ 'z')) || (decide ('0' ≤ c) && decide (c ≤ '9'))

/-- `re.findall(r"[a-z0-9]+-?[a-z0-9]*", text)` over the character list: at
an alphanumeric character the regex greedily takes a run, an optional hyphen
and a second run; other characters are skipped. -/
def findTokensAux (l : List Char) : List (List Char) :=
  match l with
  | [] => []
  | c :: cs =>
    if isTokChar c then
      match hrest : (c :: cs).dropWhile isTokChar with
      | '-' :: rest2 =>
        ((c :: cs).takeWhile isTokChar ++ '-' :: rest2.takeWhile isTokChar)
          :: findTokensAux (rest2.dropWhile isTokChar)
      | rest1 => (c :: cs).takeWhile isTokChar :: findTokensAux rest1
  else findTokensAux cs
termination_by l.length
decreasing_by
  · have h1 : ((c :: cs).dropWhile isTokChar).length ≤ cs.length := by
      rw [List.dropWhile_cons]
      split
      · exact (List.dropWhile_sublist _).length_le
      · simp_all
    rw [hrest] at h1
    simp only [List.length_cons] at h1
    calc (rest2.dropWhile isTokChar).length ≤ rest2.length := (List.dropWhile_sublist _).length_le
      _ < cs.length + 1 := by omega
      _ ≤ (c :: cs).length := by simp
  · have h1 : ((c :: cs).dropWhile isTokChar).length ≤ cs.length := by
      rw [List.dropWhile_cons]
      split
      · exact (List.dropWhile_sublist _).length_le
      · simp_all
    rw [hrest] at h1
    simp only [List.length_cons]
    omega
  · simp

/-- `tokenize` from `bm25_search.py`: empty text gives no tokens; otherwise
lowercase, extract `[a-z0-9]+-?[a-z0-9]*` matches, and drop tokens of length
≤ 1. -/
def tokenize (text : String) : List String :=
  if text = "" then []
  else
    ((findTokensAux (pyLower text).data).map (fun t => String.mk t)).filter
      (fun t => t.length > 1)

/-- A document dict passed to `BM25Search.add_documents`
(`{"id": ..., "content": ..., "metadata": ...}`). -/
structure DocDict where
  id : String
  content : String
  metadata : Metadata
deriving DecidableEq

/-- `BM25Document`: `__post_init__` tokenizes the content. -/
structure BM25Document where
  id : String
  content : String
  metadata : Metadata
  tokens : List String
deriving DecidableEq

/-- The `BM25Document(...)` construction in `add_documents`. -/
def mkBM25Document (d : DocDict) : BM25Document :=
  ⟨d.id, d.content, d.metadata, tokenize d.content⟩

/-- The mutable state of a `BM25Search` instance.  The `BM25Okapi` scorer
object itself is external (rank_bm25); queries take it as a parameter. -/
structure BM25Search where
  documents : List BM25Document
  index_built : Bool
deriving DecidableEq

/-- `BM25Search.__init__`. -/
def BM25Search.empty : BM25Search := ⟨[], false⟩

/-- `BM25Search.add_documents`: appends one `BM25Document` per input dict
and invalidates the built index. -/
def BM25Search.add_documents (s : BM25Search) (docs : List DocDict) : BM25Search :=
  ⟨s.documents ++ docs.map mkBM25Document, false⟩

/-- `BM25Search.get_document_count`. -/
def BM25Search.get_document_count (s : BM25Search) : Nat :=
  s.documents.length

/-- An entry of the ChromaDB collection (id, document text, metadata). -/
structure ChromaEntry where
  id : String
  content : String
  metadata : Metadata
deriving DecidableEq

/-- The ChromaDB collection, modelled as an insertion-ordered store keyed by
id with the library's documented upsert semantics (an existing id is
replaced in place, a new id is appended). -/
structure ChromaCollection where
  entries : List ChromaEntry
deriving DecidableEq

/-- Upsert of a single entry. -/
def ChromaCollection.upsertOne (c : ChromaCollection) (e : ChromaEntry) : ChromaCollection :=
  if c.entries.any (fun x => x.id == e.id) then
    ⟨c.entries.map (fun x => if x.id == e.id then e else x)⟩
  else
    ⟨c.entries ++ [e]⟩

/-- `collection.upsert(ids=..., documents=..., metadatas=...)` over a batch.
`VectorStore.add_documents` upserts batch after batch, which equals one fold
over the concatenated item list. -/
def ChromaCollection.upsertAll (c : ChromaCollection) (es : List ChromaEntry) : ChromaCollection :=
  es.foldl ChromaCollection.upsertOne c

/-- `collection.count()`. -/
def ChromaCollection.count (c : ChromaCollection) : Nat :=
  c.entries.length

/-- String rendering of a metadata value in an f-string. -/
def metaValStr : MetaVal → String
  | MetaVal.s v => v
  | MetaVal.q v => toString v

/-- A LangChain `Document` as consumed by `VectorStore.add_documents`. -/
structure LCDocument where
  page_content : String
  metadata : Metadata
deriving DecidableEq

/-- The id built in `VectorStore.add_documents`:
`f"{lesson_id}_chunk_{chunk_idx}"`, with `lesson_id` defaulting to
`f"unknown_{i}"` and `chunk_index` defaulting to `0`. -/
def docId (i : Nat) (d : LCDocument) : String :=
  (match mget d.metadata "lesson_id" with
   | some v => metaValStr v
   | none => "unknown_" ++ toString i) ++ "_chunk_" ++
  (match mget d.metadata "chunk_index" with
   | some v => metaValStr v
   | none => "0")

/-- `VectorStore._filter_metadata`: restricted to `MetaVal` (strings and
numbers) every value is already ChromaDB-compatible, so the filter is the
identity on this value domain. -/
def filterMetadata (m : Metadata) : Metadata := m

/-- `VectorStore.add_documents`: build one id per document from its
metadata, then upsert (id, content, filtered metadata) into the collection.
Embedding generation is external and does not affect the stored entries'
ids or count. -/
def VectorStore.add_documents (c : ChromaCollection) (docs : List LCDocument) : ChromaCollection :=
  c.upsertAll (docs.enum.map (fun p =>
    ⟨docId p.1 p.2, p.2.page_content, filterMetadata p.2.metadata⟩))

/-- The metadata filter in `BM25Search.search`: every filter key must be
present with exactly the filter's value (a missing key reads as `None` and
never equals a filter value). -/
def bm25MatchesFilter (f : Option Metadata) (d : BM25Document) : Bool :=
  match f with
  | none => true
  | some flt => flt.all (fun p => mget d.metadata p.1 == some p.2)

/-- `BM25Search.build_index`: with no documents it warns and returns with
the index still unbuilt; otherwise it constructs the `BM25Okapi` scorer
(external) and marks the index built. -/
def BM25Search.build_index (s : BM25Search) : BM25Search :=
  if s.documents.isEmpty then s else { s with index_built := true }

/-- `BM25Search.search`: build the index if needed; `not self.bm25 or not
self.documents` reduces to the documents being empty (the scorer exists iff
a build saw documents); tokenize the query and return empty on zero tokens;
otherwise score all documents (`getScores` stands for
`BM25Okapi.get_scores`), filter by metadata, stable-sort by score
descending, assign ranks 1.., and truncate. -/
def BM25Search.search (getScores : List String → List Rat) (s : BM25Search)
    (query : String) (n_results : Nat) (mfilter : Option Metadata) : List SearchHit :=
  let s1 := if s.index_built = false then s.build_index else s
  if s1.documents.isEmpty then []
  else
    let query_tokens := tokenize query
    if query_tokens.isEmpty then []
    else
      let scores := getScores query_tokens
      let results := (s1.documents.zip scores).filterMap (fun p =>
        if bm25MatchesFilter mfilter p.1 then
          some (SearchHit.mk p.1.id p.1.content p.1.metadata p.2 0)
        else none)
      let sorted := sortByDesc (fun h => h.score) results
      let ranked := sorted.enum.map (fun p => { p.2 with rank := p.1 + 1 })
      ranked.take n_results

/-! ### Mode B: `HybridSearch.multi_tier_search` -/

/-- The outputs of the eight tier sub-searches (dense and sparse per tier)
that `multi_tier_search` issues; the searches themselves live in the
external index collaborators. -/
structure TierInputs where
  eqDense : List SearchHit
  eqSparse : List SearchHit
  tyDense : List SearchHit
  tySparse : List SearchHit
  unDense : List SearchHit
  unSparse : List SearchHit
  seDense : List SearchHit
  seSparse : List SearchHit

/-- Python `all_results[result.id] = result` on the insertion-ordered dict. -/
def dictInsertR (l : List RetrievalResult) (r : RetrievalResult) : List RetrievalResult :=
  if l.any (fun x => x.id == r.id) then
    l.map (fun x => if x.id == r.id then r else x)
  else
    l ++ [r]

/-- The tier-1 loop of `multi_tier_search`: tag every fused result, append
it to the tier list and store it in `all_results` (no freshness check — this
is the first tier to write). -/
def addTierAll (tag : RetrievalResult → RetrievalResult)
    (state : List RetrievalResult × List RetrievalResult)
    (rs : List RetrievalResult) : List RetrievalResult × List RetrievalResult :=
  rs.foldl (fun s r => (dictInsertR s.1 (tag r), s.2 ++ [tag r])) state

/-- The tier-2/3/4 loops: a result whose id is already in `all_results` is
skipped entirely (not re-tagged, not re-scored, not appended anywhere). -/
def addTierNew (tag : RetrievalResult → RetrievalResult)
    (state : List RetrievalResult × List RetrievalResult)
    (rs : List RetrievalResult) : List RetrievalResult × List RetrievalResult :=
  rs.foldl (fun s r =>
    if s.1.any (fun x => x.id == r.id) then s
    else (s.1 ++ [tag r], s.2 ++ [tag r])) state

/-- `HybridSearch.multi_tier_search`: four guarded tier searches fused by
RRF, merged with later-tier ids skipped, tier lists and the combined list
sorted by boosted score, the combined list truncated to `total_results`. -/
def multiTierSearch (st : Settings) (jobTag jobType : Option String)
    (inp : TierInputs) (total_results : Nat) :
    List RetrievalResult ×
      (List RetrievalResult × List RetrievalResult ×
        List RetrievalResult × List RetrievalResult) :=
  let s1 := if hasVal jobTag then
      addTierAll (tagES st) ([], []) (combineResults st.rrf_k inp.eqDense inp.eqSparse)
    else ([], [])
  let s2 := if hasVal jobType then
      addTierNew (tagET st) (s1.1, []) (combineResults st.rrf_k inp.tyDense inp.tySparse)
    else (s1.1, [])
  let s3 := addTierNew (tagGEN st) (s2.1, []) (combineResults st.rrf_k inp.unDense inp.unSparse)
  let s4 := addTierNew tagSEM (s3.1, []) (combineResults st.rrf_k inp.seDense inp.seSparse)
  ((sortByDesc (fun r => r.boosted_score) s4.1).take total_results,
    (sortByDesc (fun r => r.boosted_score) s1.2,
      sortByDesc (fun r => r.boosted_score) s2.2,
      sortByDesc (fun r => r.boosted_score) s3.2,
      sortByDesc (fun r => r.boosted_score) s4.2))

/-- The fused candidate list a tier contributes before deduplication
(empty when the tier's guard is off). -/
def fusedTier (st : Settings) (jobTag jobType : Option String) (inp : TierInputs) :
    MatchTier → List RetrievalResult
  | MatchTier.EQUIPMENT_SPECIFIC =>
    if hasVal jobTag then combineResults st.rrf_k inp.eqDense inp.eqSparse else []
  | MatchTier.EQUIPMENT_TYPE =>
    if hasVal jobType then combineResults st.rrf_k inp.tyDense inp.tySparse else []
  | MatchTier.GENERIC => combineResults st.rrf_k inp.unDense inp.unSparse
  | MatchTier.SEMANTIC => combineResults st.rrf_k inp.seDense inp.seSparse

/-- The tag-and-boost a tier applies. -/
def tagFor (st : Settings) : MatchTier → RetrievalResult → RetrievalResult
  | MatchTier.EQUIPMENT_SPECIFIC => tagES st
  | MatchTier.EQUIPMENT_TYPE => tagET st
  | MatchTier.GENERIC => tagGEN st
  | MatchTier.SEMANTIC => fun r => tagSEM r

/-- The tagged results a tier contributes. -/
def tierContribution (st : Settings) (jobTag jobType : Option String)
    (inp : TierInputs) (t : MatchTier) : List RetrievalResult :=
  (fusedTier st jobTag jobType inp t).map (tagFor st t)

/-- Keep the results whose id does not yet occur in `acc`. -/
def freshFilter (acc l : List RetrievalResult) : List RetrievalResult :=
  l.filter (fun r => !(acc.any (fun x => x.id == r.id)))

/-- The first tier (in precedence order) whose fused candidates contain the
given id; SEMANTIC when none of the first three do. -/
def firstTierOf (st : Settings) (jobTag jobType : Option String)
    (inp : TierInputs) (i : String) : MatchTier :=
  if (fusedTier st jobTag jobType inp MatchTier.EQUIPMENT_SPECIFIC).any
      (fun r => r.id == i) then MatchTier.EQUIPMENT_SPECIFIC
  else if (fusedTier st jobTag jobType inp MatchTier.EQUIPMENT_TYPE).any
      (fun r => r.id == i) then MatchTier.EQUIPMENT_TYPE
  else if (fusedTier st jobTag jobType inp MatchTier.GENERIC).any
      (fun r => r.id == i) then MatchTier.GENERIC
  else MatchTier.SEMANTIC

/-- The contents of `all_results` after the four tier loops, in insertion
order: tier 1's tagged results, then each later tier's tagged results whose
ids are fresh with respect to everything before them. -/
def allResultsList (st : Settings) (jobTag jobType : Option String)
    (inp : TierInputs) : List RetrievalResult :=
  let t1 := (fusedTier st jobTag jobType inp MatchTier.EQUIPMENT_SPECIFIC).map
    (tagFor st MatchTier.EQUIPMENT_SPECIFIC)
  let f2 := (freshFilter t1 (fusedTier st jobTag jobType inp MatchTier.EQUIPMENT_TYPE)).map
    (tagFor st MatchTier.EQUIPMENT_TYPE)
  let f3 := (freshFilter (t1 ++ f2)
    (fusedTier st jobTag jobType inp MatchTier.GENERIC)).map
    (tagFor st MatchTier.GENERIC)
  let f4 := (freshFilter (t1 ++ f2 ++ f3)
    (fusedTier st jobTag jobType inp MatchTier.SEMANTIC)).map
    (tagFor st MatchTier.SEMANTIC)
  t1 ++ f2 ++ f3 ++ f4

/-! ### Reranker (`reranker.py`)

The cross-encoder model is external: `score q content` stands for
`self.model.predict` on the (query, content) pair.  Reranking mutates each
input result's metadata in place; the embedding returns the post-call state
of the input list as the first component and the method's return value as
the second. -/

/-- `result.metadata["rerank_score"] = float(scores[i])`. -/
def setRerankScore (score : String → String → Rat) (q : String)
    (r : RetrievalResult) : RetrievalResult :=
  { r with metadata :=
      minsert r.metadata "rerank_score" (MetaVal.q (score q r.content)) }

/-- The sort key `x.metadata.get("rerank_score", 0)`. -/
def rerankScoreKey (r : RetrievalResult) : Rat :=
  match mget r.metadata "rerank_score" with
  | some (MetaVal.q v) => v
  | _ => 0

/-- `Reranker.rerank`: score every pair, write the scores into the results'
metadata, sort by the new score descending and truncate to `top_k`. -/
def Reranker.rerank (score : String → String → Rat) (q : String)
    (results : List RetrievalResult) (top_k : Nat) :
    List RetrievalResult × List RetrievalResult :=
  if results = [] then ([], [])
  else
    let scored := results.map (setRerankScore score q)
    (scored, (sortByDesc rerankScoreKey scored).take top_k)

/-- The tier-grouping loop of `rerank_with_tier_preservation`: groups keep
encounter order (Python dict), members keep arrival order. -/
def groupByTier (results : List RetrievalResult) :
    List (MatchTier × List RetrievalResult) :=
  results.foldl (fun acc r =>
    if acc.any (fun g => g.1 == r.match_tier) then
      acc.map (fun g => if g.1 == r.match_tier then (g.1, g.2 ++ [r]) else g)
    else acc ++ [(r.match_tier, [r])]) []

/-- Per-tier reranking: score the tier's results and sort them descending. -/
def rerankTierGroup (score : String → String → Rat) (q : String)
    (tier_results : List RetrievalResult) : List RetrievalResult :=
  sortByDesc rerankScoreKey (tier_results.map (setRerankScore score q))

/-- `reranked_tiers`: every group is reranked (`if tier_results:` is always
true for groups produced by the grouping loop). -/
def rerankedTiers (score : String → String → Rat) (q : String)
    (groups : List (MatchTier × List RetrievalResult)) :
    List (MatchTier × List RetrievalResult) :=
  groups.map (fun g => (g.1, rerankTierGroup score q g.2))

/-- `tier_counts[tier] += 1`. -/
def bumpTier (counts : List (MatchTier × Nat)) (t : MatchTier) :
    List (MatchTier × Nat) :=
  counts.map (fun c => if c.1 == t then (c.1, c.2 + 1) else c)

/-- `tier_counts[tier]` lookup. -/
def countFor (counts : List (MatchTier × Nat)) (t : MatchTier) : Nat :=
  match counts.find? (fun c => c.1 == t) with
  | some c => c.2
  | none => 0

/-- Body of the guarantee phase's inner loop: append while below `top_k`. -/
def guaranteeInner (top_k : Nat) (t : MatchTier)
    (s2 : List RetrievalResult × List (MatchTier × Nat)) (r : RetrievalResult) :
    List RetrievalResult × List (MatchTier × Nat) :=
  if s2.1.length < top_k then (s2.1 ++ [r], bumpTier s2.2 t) else s2

/-- One tier of the guarantee phase: its top `min_per_tier` reranked
results. -/
def guaranteeStep (top_k min_per_tier : Nat)
    (s : List RetrievalResult × List (MatchTier × Nat))
    (g : MatchTier × List RetrievalResult) :
    List RetrievalResult × List (MatchTier × Nat) :=
  (g.2.take min_per_tier).foldl (guaranteeInner top_k g.1) s

/-- The guarantee phase over all reranked tiers, starting from the empty
selection and zeroed per-tier counts. -/
def guaranteePhase (top_k min_per_tier : Nat)
    (rtiers : List (MatchTier × List RetrievalResult)) :
    List RetrievalResult × List (MatchTier × Nat) :=
  rtiers.foldl (guaranteeStep top_k min_per_tier)
    ([], rtiers.map (fun g => (g.1, 0)))

/-- `all_remaining`: per tier, everything after the `tier_counts[tier]`
results the guarantee phase took. -/
def allRemaining (rtiers : List (MatchTier × List RetrievalResult))
    (counts : List (MatchTier × Nat)) : List RetrievalResult :=
  rtiers.foldl (fun acc g => acc ++ g.2.drop (countFor counts g.1)) []

/-- The fill loop: `break` at `top_k`, skip duplicates already selected. -/
def fillLoop (top_k : Nat) :
    List RetrievalResult → List RetrievalResult → List RetrievalResult
  | final, [] => final
  | final, r :: rest =>
    if final.length ≥ top_k then final
    else if r ∈ final then fillLoop top_k final rest
    else fillLoop top_k (final ++ [r]) rest

/-- `Reranker.rerank_with_tier_preservation`: group by tier, rerank within
each tier, run the guarantee phase, fill the remaining slots from the pooled
remainder sorted by rerank score, and sort the final selection once more. -/
def rerank_with_tier_preservation (score : String → String → Rat) (q : String)
    (results : List RetrievalResult) (top_k min_per_tier : Nat) :
    List RetrievalResult × List RetrievalResult :=
  if results = [] then ([], [])
  else
    let rtiers := rerankedTiers score q (groupByTier results)
    let gp := guaranteePhase top_k min_per_tier rtiers
    let remaining := sortByDesc rerankScoreKey (allRemaining rtiers gp.2)
    (results.map (setRerankScore score q),
      sortByDesc rerankScoreKey (fillLoop top_k gp.1 remaining))

/-- Python `min(raw_scores)` as a fold over head and tail. -/
def listMin (x : Rat) (xs : List Rat) : Rat := xs.foldl min x

/-- Python `max(raw_scores)`. -/
def listMax (x : Rat) (xs : List Rat) : Rat := xs.foldl max x

/-- The minimum raw cross-encoder score of a result list (0 for the empty
list, which the reranker never reaches). -/
def rawMin (score : String → String → Rat) (q : String)
    (results : List RetrievalResult) : Rat :=
  match results with
  | [] => 0
  | r0 :: rs => listMin (score q r0.content) (rs.map (fun r => score q r.content))

/-- The maximum raw cross-encoder score of a result list. -/
def rawMax (score : String → String → Rat) (q : String)
    (results : List RetrievalResult) : Rat :=
  match results with
  | [] => 0
  | r0 :: rs => listMax (score q r0.content) (rs.map (fun r => score q r.content))

/-- Write both the raw and the normalized score into a result's metadata
(`rerank_score_raw` first, then `rerank_score`, as the source does). -/
def setBothScores (score : String → String → Rat) (q : String)
    (r : RetrievalResult) (sn : Rat) : RetrievalResult :=
  { r with metadata := minsert (minsert r.metadata "rerank_score_raw" (MetaVal.q (score q r.content))) "rerank_score" (MetaVal.q sn) }

/-- `RerankerWithScoreNormalization.rerank`: min-max normalize the raw
scores to 0–100, or assign 50 to every item when the range is zero; store
both the raw and the normalized score in each result's metadata; sort by the
normalized score and truncate. -/
def rerankNormalize (score : String → String → Rat) (q : String)
    (results : List RetrievalResult) (top_k : Nat) :
    List RetrievalResult × List RetrievalResult :=
  match results with
  | [] => ([], [])
  | r0 :: rs =>
    let raw := (r0 :: rs).map (fun r => score q r.content)
    let range := rawMax score q (r0 :: rs) - rawMin score q (r0 :: rs)
    let normalized := if range > 0 then
        raw.map (fun s => (s - rawMin score q (r0 :: rs)) / range * 100)
      else List.replicate raw.length 50
    let scored := List.zipWith (setBothScores score q) (r0 :: rs) normalized
    (scored, (sortByDesc rerankScoreKey scored).take top_k)

theorem insertByDesc_perm {α : Type} (key : α → Rat) (a : α) (l : List α) :
    List.Perm (insertByDesc key a l) (a :: l) := by
  induction l with
  | nil => simp [insertByDesc]
  | cons b l ih =>
    simp only [insertByDesc]
    split
    · exact List.Perm.refl _
    · exact (List.Perm.cons b ih).trans (List.Perm.swap a b l)

theorem sortByDesc_perm {α : Type} (key : α → Rat) (l : List α) :
    List.Perm (sortByDesc key l) l := by
  induction l with
  | nil => simp [sortByDesc]
  | cons a l ih =>
    exact (insertByDesc_perm key a (sortByDesc key l)).trans (List.Perm.cons a ih)

theorem mem_sortByDesc {α : Type} {key : α → Rat} {l : List α} {x : α} :
    x ∈ sortByDesc key l ↔ x ∈ l :=
  (sortByDesc_perm key l).mem_iff

theorem id_setDense (h : SearchHit) (n : Int) (r : RetrievalResult) :
    (setDense h n r).id = r.id := rfl

theorem id_setSparse (h : SearchHit) (n : Int) (r : RetrievalResult) :
    (setSparse h n r).id = r.id := rfl

theorem id_sparseUpdAux (n : Int) (ss : List SearchHit) (r : RetrievalResult) :
    (sparseUpdAux n ss r).id = r.id := by
  induction ss generalizing n r with
  | nil => rfl
  | cons h hs ih =>
    simp only [sparseUpdAux]
    split
    · rfl
    · exact ih (n + 1) r

theorem sparseUpdAux_of_not_mem (n : Int) (ss : List SearchHit) (r : RetrievalResult)
    (h : ∀ x ∈ ss, x.id ≠ r.id) : sparseUpdAux n ss r = r := by
  induction ss generalizing n with
  | nil => rfl
  | cons x xs ih =>
    simp only [sparseUpdAux]
    rw [if_neg]
    · exact ih (n + 1) (fun y hy => h y (List.mem_cons_of_mem x hy))
    · simp only [beq_iff_eq]
      exact h x (List.mem_cons_self x xs)

theorem processDense_eq (hs : List SearchHit) :
    ∀ (combined : List RetrievalResult) (n : Int),
    (hs.map (fun x => x.id)).Nodup →
    (∀ h ∈ hs, ∀ r ∈ combined, r.id ≠ h.id) →
    processDense combined n hs = combined ++ buildDense n hs := by
  induction hs with
  | nil => intro combined n _ _; simp [processDense, buildDense]
  | cons h hs ih =>
    intro combined n hnd hfresh
    simp only [processDense, buildDense]
    have hany : combined.any (fun r => r.id == h.id) = false := by
      simp only [List.any_eq_false, beq_iff_eq]
      exact fun r hr => hfresh h (List.mem_cons_self h hs) r hr
    rw [upsertDense, hany]
    simp only [Bool.false_eq_true, if_false]
    simp only [List.map_cons, List.nodup_cons] at hnd
    have hnd' : (hs.map (fun x => x.id)).Nodup := hnd.2
    have hhid : h.id ∉ hs.map (fun x => x.id) := hnd.1
    have hfresh' : ∀ g ∈ hs, ∀ r ∈ combined ++ [setDense h n (freshEntry h)], r.id ≠ g.id := by
      intro g hg r hr
      rcases List.mem_append.mp hr with hr | hr
      · exact hfresh g (List.mem_cons_of_mem h hg) r hr
      · have : r = setDense h n (freshEntry h) := by simpa using hr
        subst this
        simp only [id_setDense]
        show (freshEntry h).id ≠ g.id
        intro hcontra
        apply hhid
        have hmem : g.id ∈ hs.map (fun x => x.id) := List.mem_map_of_mem _ hg
        have : h.id = g.id := by simpa [freshEntry] using hcontra
        rw [this]
        exact hmem
    rw [ih (combined ++ [setDense h n (freshEntry h)]) (n + 1) hnd' hfresh']
    simp [List.append_assoc]

theorem ids_map_preserved (c : List RetrievalResult) (f : RetrievalResult → RetrievalResult)
    (hf : ∀ r, (f r).id = r.id) :
    (c.map f).map (fun x => x.id) = c.map (fun x => x.id) := by
  induction c with
  | nil => rfl
  | cons r rs ih => simp [hf, ih]

theorem freshSparse_ids_irrelevant (hs : List SearchHit) (x : String)
    (hx : x ∉ hs.map (fun h => h.id)) :
    ∀ (n : Int) (ids : List String),
    freshSparse n (ids ++ [x]) hs = freshSparse n ids hs := by
  induction hs with
  | nil => intro n ids; rfl
  | cons h hs ih =>
    intro n ids
    have hne : h.id ≠ x := by
      intro hcontra
      subst hcontra
      exact hx (by simp)
    have hx' : x ∉ hs.map (fun h => h.id) := fun hc => hx (List.mem_cons_of_mem _ hc)
    simp only [freshSparse]
    by_cases hmem : h.id ∈ ids
    · rw [if_pos (List.mem_append.mpr (Or.inl hmem)), if_pos hmem, ih hx']
    · rw [if_neg, if_neg hmem, ih hx']
      intro hc
      rcases List.mem_append.mp hc with hc | hc
      · exact hmem hc
      · exact hne (by simpa using hc)

theorem sparseUpdAux_step (h : SearchHit) (hs : List SearchHit) (n : Int)
    (r : RetrievalResult) (hh : h.id ∉ hs.map (fun x => x.id)) :
    sparseUpdAux n (h :: hs) r =
      sparseUpdAux (n + 1) hs (if r.id == h.id then setSparse h n r else r) := by
  by_cases hr : r.id = h.id
  · simp only [sparseUpdAux, hr, beq_self_eq_true, if_pos]
    rw [sparseUpdAux_of_not_mem]
    intro x hx
    rw [id_setSparse]
    intro hcontra
    apply hh
    rw [← hr, ← hcontra]
    exact List.mem_map_of_mem _ hx
  · have h1 : (h.id == r.id) = false := by simp [Ne.symm hr]
    have h2 : (r.id == h.id) = false := by simp [hr]
    simp only [sparseUpdAux, h1, h2, Bool.false_eq_true, if_false]

theorem id_upd1 (h : SearchHit) (n : Int) (r : RetrievalResult) :
    (if r.id == h.id then setSparse h n r else r).id = r.id := by
  split <;> rfl

theorem processSparse_eq (ss : List SearchHit) :
    ∀ (combined : List RetrievalResult) (n : Int),
    (ss.map (fun x => x.id)).Nodup →
    processSparse combined n ss =
      combined.map (sparseUpdAux n ss) ++
        freshSparse n (combined.map (fun x => x.id)) ss := by
  induction ss with
  | nil =>
    intro combined n _
    simp [processSparse, freshSparse, sparseUpdAux]
  | cons h hs ih =>
    intro combined n hnd
    simp only [List.map_cons, List.nodup_cons] at hnd
    have hhid : h.id ∉ hs.map (fun x => x.id) := hnd.1
    simp only [processSparse]
    rw [ih (upsertSparse combined h n) (n + 1) hnd.2]
    rw [upsertSparse]
    by_cases hany : combined.any (fun r => r.id == h.id) = true
    · rw [if_pos hany]
      have hmemid : h.id ∈ combined.map (fun x => x.id) := by
        rcases List.any_eq_true.mp hany with ⟨r, hr, hre⟩
        rw [beq_iff_eq] at hre
        rw [← hre]
        exact List.mem_map_of_mem _ hr
      have hids : ((combined.map fun r => if r.id == h.id then setSparse h n r else r).map
          (fun x => x.id)) = combined.map (fun x => x.id) :=
        ids_map_preserved _ _ (id_upd1 h n)
      rw [hids]
      have hmapeq : ((combined.map fun r => if r.id == h.id then setSparse h n r else r).map
          (sparseUpdAux (n + 1) hs)) = combined.map (sparseUpdAux n (h :: hs)) := by
        rw [List.map_map]
        apply List.map_congr_left
        intro r _
        simp only [Function.comp]
        exact (sparseUpdAux_step h hs n r hhid).symm
      rw [hmapeq]
      have hfr : freshSparse n (combined.map (fun x => x.id)) (h :: hs) =
          freshSparse (n + 1) (combined.map (fun x => x.id)) hs := by
        simp only [freshSparse]
        rw [if_pos hmemid]
      rw [hfr]
    · rw [if_neg hany]
      have hnomem : ∀ r ∈ combined, r.id ≠ h.id := by
        intro r hr
        rcases List.any_eq_false.mp (Bool.eq_false_iff.mpr hany) r hr with h'
        intro hc
        exact h' (by simp [hc])
      have hmemid : h.id ∉ combined.map (fun x => x.id) := by
        intro hc
        rcases List.mem_map.mp hc with ⟨r, hr, hre⟩
        exact hnomem r hr hre
      have hidse : ((combined ++ [setSparse h n (freshEntry h)]).map (fun x => x.id)) =
          combined.map (fun x => x.id) ++ [h.id] := by
        simp [id_setSparse, freshEntry]
      rw [hidse]
      rw [freshSparse_ids_irrelevant hs h.id hhid (n + 1) (combined.map (fun x => x.id))]
      have hmape : ((combined ++ [setSparse h n (freshEntry h)]).map (sparseUpdAux (n + 1) hs)) =
          combined.map (sparseUpdAux n (h :: hs)) ++ [setSparse h n (freshEntry h)] := by
        rw [List.map_append]
        congr 1
        · apply List.map_congr_left
          intro r hr
          have : (h.id == r.id) = false := by simp [Ne.symm (hnomem r hr)]
          simp only [sparseUpdAux, this, Bool.false_eq_true, if_false]
        · simp only [List.map_cons, List.map_nil]
          congr 1
          apply sparseUpdAux_of_not_mem
          intro x hx
          rw [id_setSparse]
          show x.id ≠ (freshEntry h).id
          intro hc
          apply hhid
          rw [show (freshEntry h).id = h.id from rfl] at hc
          rw [← hc]
          exact List.mem_map_of_mem _ hx
      rw [hmape]
      have hfr : freshSparse n (combined.map (fun x => x.id)) (h :: hs) =
          setSparse h n (freshEntry h) :: freshSparse (n + 1) (combined.map (fun x => x.id)) hs := by
        simp only [freshSparse]
        rw [if_neg hmemid]
      rw [hfr]
      simp [List.append_assoc]

theorem fuse_id (k : Rat) (r : RetrievalResult) : (fuse k r).id = r.id := rfl

theorem fuse_dense_rank (k : Rat) (r : RetrievalResult) :
    (fuse k r).dense_rank = r.dense_rank := rfl

theorem fuse_sparse_rank (k : Rat) (r : RetrievalResult) :
    (fuse k r).sparse_rank = r.sparse_rank := rfl

theorem rrfScore_of_nonpos {k : Rat} {x : Int} (h : x ≤ 0) : rrfScore k x = 0 := by
  simp [rrfScore, h]

theorem fuse_rrf (k : Rat) (r : RetrievalResult) :
    (fuse k r).rrf_score = rrfScore k r.dense_rank + rrfScore k r.sparse_rank := by
  show (if r.dense_rank > 0 then rrfScore k r.dense_rank else 0) +
      (if r.sparse_rank > 0 then rrfScore k r.sparse_rank else 0) =
      rrfScore k r.dense_rank + rrfScore k r.sparse_rank
  congr 1
  · by_cases h : r.dense_rank > 0
    · rw [if_pos h]
    · rw [if_neg h, rrfScore_of_nonpos (by omega)]
  · by_cases h : r.sparse_rank > 0
    · rw [if_pos h]
    · rw [if_neg h, rrfScore_of_nonpos (by omega)]

theorem buildDense_ids (hs : List SearchHit) :
    ∀ n : Int, (buildDense n hs).map (fun x => x.id) = hs.map (fun x => x.id) := by
  induction hs with
  | nil => intro n; rfl
  | cons h hs ih =>
    intro n
    simp only [buildDense, List.map_cons, ih (n + 1)]
    rfl

theorem rankOfAux_absent (hs : List SearchHit) (i : String) :
    ∀ n : Int, (∀ h ∈ hs, h.id ≠ i) → rankOfAux n hs i = 0 := by
  induction hs with
  | nil => intro n _; rfl
  | cons h hs ih =>
    intro n habs
    simp only [rankOfAux]
    rw [if_neg, ih (n + 1) (fun x hx => habs x (List.mem_cons_of_mem h hx))]
    simp only [beq_iff_eq]
    exact habs h (List.mem_cons_self h hs)

theorem rankOfAux_get (hs : List SearchHit) :
    ∀ (n : Int) (j : Nat) (hj : j < hs.length),
    (hs.map (fun x => x.id)).Nodup →
    rankOfAux n hs (hs.get ⟨j, hj⟩).id = n + (j : Int) := by
  induction hs with
  | nil => intro n j hj _; exact absurd hj (by simp)
  | cons h hs ih =>
    intro n j hj hnd
    simp only [List.map_cons, List.nodup_cons] at hnd
    match j with
    | 0 => simp [rankOfAux]
    | j + 1 =>
      have hjl : j < hs.length := by simpa using hj
      have hget : (h :: hs).get ⟨j + 1, hj⟩ = hs.get ⟨j, hjl⟩ := rfl
      rw [hget]
      simp only [rankOfAux]
      rw [if_neg, ih (n + 1) j hjl hnd.2]
      · push_cast
        ring
      · simp only [beq_iff_eq]
        intro hc
        exact hnd.1 (hc ▸ List.mem_map_of_mem (fun x => x.id) (hs.get_mem j hjl))

theorem buildDense_mem (hs : List SearchHit) :
    ∀ (n : Int) (b : RetrievalResult),
    (hs.map (fun x => x.id)).Nodup →
    b ∈ buildDense n hs →
    b.dense_rank = rankOfAux n hs b.id ∧ b.sparse_rank = 0 ∧
      b.id ∈ hs.map (fun x => x.id) := by
  induction hs with
  | nil => intro n b _ hb; exact absurd hb (by simp [buildDense])
  | cons h hs ih =>
    intro n b hnd hb
    simp only [List.map_cons, List.nodup_cons] at hnd
    rcases List.mem_cons.mp hb with hb | hb
    · subst hb
      constructor
      · show n = rankOfAux n (h :: hs) (setDense h n (freshEntry h)).id
        have : (setDense h n (freshEntry h)).id = h.id := rfl
        rw [this]
        simp [rankOfAux]
      constructor
      · rfl
      · rw [show (setDense h n (freshEntry h)).id = h.id from rfl]
        exact List.mem_map_of_mem _ (List.mem_cons_self h hs)
    · rcases ih (n + 1) b hnd.2 hb with ⟨h1, h2, h3⟩
      refine ⟨?_, h2, List.mem_cons_of_mem _ h3⟩
      rw [h1]
      simp only [rankOfAux]
      rw [if_neg]
      simp only [beq_iff_eq]
      intro hc
      exact hnd.1 (hc ▸ h3)

theorem sparseUpdAux_dense_rank (ss : List SearchHit) :
    ∀ (n : Int) (r : RetrievalResult), (sparseUpdAux n ss r).dense_rank = r.dense_rank := by
  induction ss with
  | nil => intro n r; rfl
  | cons h hs ih =>
    intro n r
    simp only [sparseUpdAux]
    split
    · rfl
    · exact ih (n + 1) r

theorem sparseUpdAux_sparse_rank (ss : List SearchHit) :
    ∀ (n : Int) (r : RetrievalResult), r.sparse_rank = 0 →
    (sparseUpdAux n ss r).sparse_rank = rankOfAux n ss r.id := by
  induction ss with
  | nil => intro n r h0; simpa [sparseUpdAux, rankOfAux] using h0
  | cons h hs ih =>
    intro n r h0
    simp only [sparseUpdAux, rankOfAux]
    by_cases hid : h.id == r.id
    · rw [if_pos hid, if_pos hid]
      rfl
    · rw [if_neg (by simpa using hid), if_neg (by simpa using hid)]
      exact ih (n + 1) r h0

theorem freshSparse_mem (ss : List SearchHit) :
    ∀ (n : Int) (ids : List String) (b : RetrievalResult),
    (ss.map (fun x => x.id)).Nodup →
    b ∈ freshSparse n ids ss →
    b.id ∈ ss.map (fun x => x.id) ∧ b.id ∉ ids ∧
      b.dense_rank = 0 ∧ b.sparse_rank = rankOfAux n ss b.id := by
  induction ss with
  | nil => intro n ids b _ hb; exact absurd hb (by simp [freshSparse])
  | cons h hs ih =>
    intro n ids b hnd hb
    simp only [List.map_cons, List.nodup_cons] at hnd
    simp only [freshSparse] at hb
    by_cases hmem : h.id ∈ ids
    · rw [if_pos hmem] at hb
      rcases ih (n + 1) ids b hnd.2 hb with ⟨h1, h2, h3, h4⟩
      refine ⟨List.mem_cons_of_mem _ h1, h2, h3, ?_⟩
      rw [h4]
      simp only [rankOfAux]
      rw [if_neg]
      simp only [beq_iff_eq]
      intro hc
      exact hnd.1 (hc ▸ h1)
    · rw [if_neg hmem] at hb
      rcases List.mem_cons.mp hb with hb | hb
      · subst hb
        have hbid : (setSparse h n (freshEntry h)).id = h.id := rfl
        refine ⟨by simp [hbid], by rw [hbid]; exact hmem, rfl, ?_⟩
        rw [hbid]
        simp [rankOfAux, setSparse]
      · rcases ih (n + 1) ids b hnd.2 hb with ⟨h1, h2, h3, h4⟩
        refine ⟨List.mem_cons_of_mem _ h1, h2, h3, ?_⟩
        rw [h4]
        simp only [rankOfAux]
        rw [if_neg]
        simp only [beq_iff_eq]
        intro hc
        exact hnd.1 (hc ▸ h1)

theorem combineResults_split (k : Rat) (dense sparse : List SearchHit)
    (hd : (dense.map (fun x => x.id)).Nodup) (hsp : (sparse.map (fun x => x.id)).Nodup) :
    combineResults k dense sparse =
      ((buildDense 1 dense).map (sparseUpdAux 1 sparse) ++
        freshSparse 1 (dense.map (fun x => x.id)) sparse).map (fuse k) := by
  unfold combineResults
  rw [processDense_eq dense [] 1 hd (fun h _ r hr => absurd hr (by simp))]
  rw [List.nil_append]
  rw [processSparse_eq sparse (buildDense 1 dense) 1 hsp]
  rw [buildDense_ids]

theorem combineResults_mem (k : Rat) (dense sparse : List SearchHit)
    (hd : (dense.map (fun x => x.id)).Nodup) (hsp : (sparse.map (fun x => x.id)).Nodup) :
    ∀ r ∈ combineResults k dense sparse,
      r.dense_rank = rankOfAux 1 dense r.id ∧
      r.sparse_rank = rankOfAux 1 sparse r.id ∧
      r.rrf_score = rrfScore k r.dense_rank + rrfScore k r.sparse_rank := by
  intro r hr
  rw [combineResults_split k dense sparse hd hsp] at hr
  rcases List.mem_map.mp hr with ⟨r0, hr0, hre⟩
  subst hre
  rcases List.mem_append.mp hr0 with hA | hB
  · rcases List.mem_map.mp hA with ⟨b, hb, hbe⟩
    subst hbe
    rcases buildDense_mem dense 1 b hd hb with ⟨hdr, hsr, _⟩
    have hid : (sparseUpdAux 1 sparse b).id = b.id := id_sparseUpdAux 1 sparse b
    refine ⟨?_, ?_, fuse_rrf k _⟩
    · rw [fuse_dense_rank, fuse_id, hid, sparseUpdAux_dense_rank, hdr]
    · rw [fuse_sparse_rank, fuse_id, hid, sparseUpdAux_sparse_rank sparse 1 b hsr]
  · rcases freshSparse_mem sparse 1 (dense.map (fun x => x.id)) r0 hsp hB with
      ⟨_, hnotd, hdr, hsr⟩
    refine ⟨?_, ?_, fuse_rrf k _⟩
    · rw [fuse_dense_rank, fuse_id, hdr, rankOfAux_absent]
      intro h hh hc
      exact hnotd (hc ▸ List.mem_map_of_mem (fun x => x.id) hh)
    · rw [fuse_sparse_rank, fuse_id, hsr]

theorem freshSparse_ids_filter (ss : List SearchHit) :
    ∀ (n : Int) (ids : List String),
    (freshSparse n ids ss).map (fun x => x.id) =
      (ss.map (fun x => x.id)).filter (fun x => decide (x ∉ ids)) := by
  induction ss with
  | nil => intro n ids; rfl
  | cons h hs ih =>
    intro n ids
    simp only [freshSparse, List.map_cons, List.filter_cons]
    by_cases hmem : h.id ∈ ids
    · rw [if_pos hmem, ih (n + 1) ids]
      have : (decide (h.id ∉ ids)) = false := by simp [hmem]
      rw [this]
      simp
    · rw [if_neg hmem]
      have hdec : (decide (h.id ∉ ids)) = true := by simp [hmem]
      rw [hdec]
      simp only [List.map_cons, if_true]
      rw [ih (n + 1) ids]
      rfl

theorem countP_id_eq_count (l : List RetrievalResult) (i : String) :
    l.countP (fun r => r.id == i) = (l.map (fun r => r.id)).count i := by
  induction l with
  | nil => rfl
  | cons r rs ih =>
    simp only [List.countP_cons, List.map_cons, List.count_cons, ih]

theorem combineResults_countP (k : Rat) (dense sparse : List SearchHit)
    (hd : (dense.map (fun x => x.id)).Nodup) (hsp : (sparse.map (fun x => x.id)).Nodup)
    (i : String) :
    (combineResults k dense sparse).countP (fun r => r.id == i) =
      if i ∈ dense.map (fun x => x.id) ∨ i ∈ sparse.map (fun x => x.id) then 1 else 0 := by
  rw [countP_id_eq_count]
  rw [combineResults_split k dense sparse hd hsp]
  rw [ids_map_preserved _ _ (fuse_id k)]
  rw [List.map_append]
  rw [ids_map_preserved _ _ (id_sparseUpdAux 1 sparse)]
  rw [buildDense_ids]
  rw [freshSparse_ids_filter]
  rw [List.count_append]
  by_cases hdm : i ∈ dense.map (fun x => x.id)
  · have h1 : (dense.map (fun x => x.id)).count i = 1 :=
      List.count_eq_one_of_mem hd hdm
    have h2 : ((sparse.map (fun x => x.id)).filter
        (fun x => decide (x ∉ dense.map (fun y => y.id)))).count i = 0 := by
      rw [List.count_eq_zero]
      intro hc
      have := List.of_mem_filter hc
      simp only [decide_eq_true_eq] at this
      exact this hdm
    rw [h1, h2, if_pos (Or.inl hdm)]
  · have h1 : (dense.map (fun x => x.id)).count i = 0 := by
      rw [List.count_eq_zero]; exact hdm
    rw [h1]
    by_cases hsm : i ∈ sparse.map (fun x => x.id)
    · have h2 : ((sparse.map (fun x => x.id)).filter
          (fun x => decide (x ∉ dense.map (fun y => y.id)))).count i =
          (sparse.map (fun x => x.id)).count i := by
        apply List.count_filter
        simp [hdm]
      rw [h2, List.count_eq_one_of_mem hsp hsm, if_pos (Or.inr hsm)]
    · have h2 : ((sparse.map (fun x => x.id)).filter
          (fun x => decide (x ∉ dense.map (fun y => y.id)))).count i = 0 := by
        rw [List.count_eq_zero]
        intro hc
        exact hsm (List.mem_of_mem_filter hc)
      have hnc : ¬(i ∈ dense.map (fun x => x.id) ∨ i ∈ sparse.map (fun x => x.id)) := by
        rintro (hc | hc)
        · exact hdm hc
        · exact hsm hc
      rw [h2, if_neg hnc]

/-- C3: `_combine_results` produces exactly one entry per document id in the
union of the dense and sparse lists; an entry's `dense_rank` (resp.
`sparse_rank`) is its 1-indexed position in that list and 0 when absent, and
`rrf_score` is the sum of the two per-list RRF contributions, an absent list
contributing exactly 0 (so an id present in both lists accumulates both). -/
theorem claim_C3_fusion_completeness (k : Rat) (dense sparse : List SearchHit)
    (hd : (dense.map (fun x => x.id)).Nodup) (hsp : (sparse.map (fun x => x.id)).Nodup) :
    (∀ i : String, (combineResults k dense sparse).countP (fun r => r.id == i) =
      if i ∈ dense.map (fun x => x.id) ∨ i ∈ sparse.map (fun x => x.id) then 1 else 0)
    ∧ (∀ r ∈ combineResults k dense sparse,
      (∀ j, (hj : j < dense.length) → (dense.get ⟨j, hj⟩).id = r.id →
        r.dense_rank = (j : Int) + 1)
      ∧ ((∀ h ∈ dense, h.id ≠ r.id) → r.dense_rank = 0)
      ∧ (∀ j, (hj : j < sparse.length) → (sparse.get ⟨j, hj⟩).id = r.id →
        r.sparse_rank = (j : Int) + 1)
      ∧ ((∀ h ∈ sparse, h.id ≠ r.id) → r.sparse_rank = 0)
      ∧ r.rrf_score = rrfScore k r.dense_rank + rrfScore k r.sparse_rank
      ∧ rrfScore k 0 = 0) := by
  refine ⟨combineResults_countP k dense sparse hd hsp, ?_⟩
  intro r hr
  rcases combineResults_mem k dense sparse hd hsp r hr with ⟨hdr, hsr, hrrf⟩
  refine ⟨?_, ?_, ?_, ?_, hrrf, rrfScore_of_nonpos le_rfl⟩
  · intro j hj hid
    rw [hdr, ← hid, rankOfAux_get dense 1 j hj hd]
    omega
  · intro habs
    rw [hdr, rankOfAux_absent dense r.id 1 habs]
  · intro j hj hid
    rw [hsr, ← hid, rankOfAux_get sparse 1 j hj hsp]
    omega
  · intro habs
    rw [hsr, rankOfAux_absent sparse r.id 1 habs]

/-- Witness for C3 at concrete dense/sparse lists sharing the id `b`. -/
theorem claim_C3_witness :
    (([⟨"a", "A", [], 1, 0⟩, ⟨"b", "B", [], (1 : Rat)/2, 0⟩] :
        List SearchHit).map (fun x => x.id)).Nodup
    ∧ (([⟨"b", "B", [], 2, 0⟩, ⟨"c", "C", [], 1, 0⟩] :
        List SearchHit).map (fun x => x.id)).Nodup
    ∧ ((∀ i : String, ((combineResults 60
        [⟨"a", "A", [], 1, 0⟩, ⟨"b", "B", [], (1 : Rat)/2, 0⟩]
        [⟨"b", "B", [], 2, 0⟩, ⟨"c", "C", [], 1, 0⟩]).countP (fun r => r.id == i)) =
      if i ∈ ([⟨"a", "A", [], 1, 0⟩, ⟨"b", "B", [], (1 : Rat)/2, 0⟩] :
            List SearchHit).map (fun x => x.id) ∨
          i ∈ ([⟨"b", "B", [], 2, 0⟩, ⟨"c", "C", [], 1, 0⟩] :
            List SearchHit).map (fun x => x.id) then 1 else 0)
    ∧ (∀ r ∈ combineResults 60
        [⟨"a", "A", [], 1, 0⟩, ⟨"b", "B", [], (1 : Rat)/2, 0⟩]
        [⟨"b", "B", [], 2, 0⟩, ⟨"c", "C", [], 1, 0⟩],
      (∀ j, (hj : j < ([⟨"a", "A", [], 1, 0⟩, ⟨"b", "B", [], (1 : Rat)/2, 0⟩] :
          List SearchHit).length) →
        (([⟨"a", "A", [], 1, 0⟩, ⟨"b", "B", [], (1 : Rat)/2, 0⟩] :
          List SearchHit).get ⟨j, hj⟩).id = r.id → r.dense_rank = (j : Int) + 1)
      ∧ ((∀ h ∈ ([⟨"a", "A", [], 1, 0⟩, ⟨"b", "B", [], (1 : Rat)/2, 0⟩] :
          List SearchHit), h.id ≠ r.id) → r.dense_rank = 0)
      ∧ (∀ j, (hj : j < ([⟨"b", "B", [], 2, 0⟩, ⟨"c", "C", [], 1, 0⟩] :
          List SearchHit).length) →
        (([⟨"b", "B", [], 2, 0⟩, ⟨"c", "C", [], 1, 0⟩] :
          List SearchHit).get ⟨j, hj⟩).id = r.id → r.sparse_rank = (j : Int) + 1)
      ∧ ((∀ h ∈ ([⟨"b", "B", [], 2, 0⟩, ⟨"c", "C", [], 1, 0⟩] :
          List SearchHit), h.id ≠ r.id) → r.sparse_rank = 0)
      ∧ r.rrf_score = rrfScore 60 r.dense_rank + rrfScore 60 r.sparse_rank
      ∧ rrfScore 60 0 = 0)) :=
  ⟨by decide, by decide,
    claim_C3_fusion_completeness 60
      [⟨"a", "A", [], 1, 0⟩, ⟨"b", "B", [], (1 : Rat)/2, 0⟩]
      [⟨"b", "B", [], 2, 0⟩, ⟨"c", "C", [], 1, 0⟩] (by decide) (by decide)⟩

/-- C5: `rrf_score` equals `1 / (k + rank)` for rank ≥ 1 and is strictly
decreasing in the rank; `rrf_score(0) = 0`, so absence from a ranking
contributes nothing. -/
theorem claim_C5_rrf_monotonicity (k : Rat) (r rp : Int)
    (hk : 0 < k) (h1 : 1 ≤ r) (h2 : r < rp) :
    rrfScore k r = 1 / (k + (r : Rat)) ∧
    rrfScore k rp < rrfScore k r ∧
    rrfScore k 0 = 0 := by
  have hr : (1 : Rat) ≤ (r : Rat) := by exact_mod_cast h1
  have hrp : (r : Rat) < (rp : Rat) := by exact_mod_cast h2
  have hkr : (0 : Rat) < k + (r : Rat) := by linarith
  have hkrp : (0 : Rat) < k + (rp : Rat) := by linarith
  have e1 : rrfScore k r = 1 / (k + (r : Rat)) := by
    rw [rrfScore, if_neg (by omega)]
  have e2 : rrfScore k rp = 1 / (k + (rp : Rat)) := by
    rw [rrfScore, if_neg (by omega)]
  refine ⟨e1, ?_, rrfScore_of_nonpos le_rfl⟩
  rw [e1, e2]
  apply one_div_lt_one_div_of_lt hkr
  linarith

/-- Witness for C5 at `k = 60`, ranks 1 and 2. -/
theorem claim_C5_witness :
    (0 : Rat) < 60 ∧ (1 : Int) ≤ 1 ∧ (1 : Int) < 2 ∧
    (rrfScore 60 1 = 1 / (60 + ((1 : Int) : Rat)) ∧
      rrfScore 60 2 < rrfScore 60 1 ∧ rrfScore 60 0 = 0) :=
  ⟨by norm_num, le_rfl, by norm_num,
    claim_C5_rrf_monotonicity 60 1 2 (by norm_num) le_rfl (by norm_num)⟩

/-- C2: the tier classifier evaluates its rules in fixed order, first match
wins: with a job tag present and a case-insensitive document tag match the
result is EQUIPMENT_SPECIFIC regardless of any other metadata (in particular
never GENERIC, even for `lesson_scope = universal`); with no tag match, no
type match and a scope that is neither universal nor generic the result is
SEMANTIC. -/
theorem claim_C2_tier_precedence :
    (∀ (jobTag jobType : Option String) (r : RetrievalResult) (jt : String),
      jobTag = some jt → jt ≠ "" →
      mgetStr r.metadata "equipment_tag" ≠ "" →
      pyUpper (mgetStr r.metadata "equipment_tag") = pyUpper jt →
      determineTier jobTag jobType r = MatchTier.EQUIPMENT_SPECIFIC ∧
        determineTier jobTag jobType r ≠ MatchTier.GENERIC)
    ∧ (∀ (jobTag jobType : Option String) (r : RetrievalResult),
      ¬(hasVal jobTag = true ∧ mgetStr r.metadata "equipment_tag" ≠ "" ∧
        pyUpper (mgetStr r.metadata "equipment_tag") = pyUpper (jobTag.getD "")) →
      ¬(hasVal jobType = true ∧ mgetStr r.metadata "equipment_type" ≠ "" ∧
        pyLower (mgetStr r.metadata "equipment_type") = pyLower (jobType.getD "")) →
      pyLower (mgetStr r.metadata "lesson_scope") ≠ "universal" →
      pyLower (mgetStr r.metadata "lesson_scope") ≠ "generic" →
      determineTier jobTag jobType r = MatchTier.SEMANTIC) := by
  constructor
  · intro jobTag jobType r jt hjt hne htag hup
    subst hjt
    have hcond : hasVal (some jt) = true ∧ mgetStr r.metadata "equipment_tag" ≠ "" ∧
        pyUpper (mgetStr r.metadata "equipment_tag") = pyUpper ((some jt).getD "") := by
      refine ⟨by simp [hasVal, hne], htag, by simpa using hup⟩
    rw [determineTier, if_pos hcond]
    exact ⟨rfl, by intro h; cases h⟩
  · intro jobTag jobType r h1 h2 h3 h4
    rw [determineTier, if_neg h1, if_neg h2, if_neg h3, if_neg h4]

/-- Witness for C2: a document whose tag matches the job tag
case-insensitively and whose scope is universal is EQUIPMENT_SPECIFIC, and a
fully unmatched document is SEMANTIC. -/
theorem claim_C2_witness :
    (determineTier (some "P-101") none
        ⟨"d", "c", [("equipment_tag", MetaVal.s "p-101"),
          ("lesson_scope", MetaVal.s "universal")], 0, 0, 0, 0, 0, 0,
          MatchTier.SEMANTIC⟩ = MatchTier.EQUIPMENT_SPECIFIC ∧
      determineTier (some "P-101") none
        ⟨"d", "c", [("equipment_tag", MetaVal.s "p-101"),
          ("lesson_scope", MetaVal.s "universal")], 0, 0, 0, 0, 0, 0,
          MatchTier.SEMANTIC⟩ ≠ MatchTier.GENERIC) ∧
    determineTier (some "P-101") (some "pump")
        ⟨"d", "c", [("lesson_scope", MetaVal.s "specific")], 0, 0, 0, 0, 0, 0,
          MatchTier.SEMANTIC⟩ = MatchTier.SEMANTIC :=
  ⟨claim_C2_tier_precedence.1 (some "P-101") none
      ⟨"d", "c", [("equipment_tag", MetaVal.s "p-101"),
        ("lesson_scope", MetaVal.s "universal")], 0, 0, 0, 0, 0, 0,
        MatchTier.SEMANTIC⟩ "P-101" rfl (by decide) (by decide) (by decide),
    claim_C2_tier_precedence.2 (some "P-101") (some "pump")
      ⟨"d", "c", [("lesson_scope", MetaVal.s "specific")], 0, 0, 0, 0, 0, 0,
        MatchTier.SEMANTIC⟩ (by decide) (by decide) (by decide) (by decide)⟩

/-- C4: `boosted_score` is `rrf_score` times the configured boost of the
result's tier (`equipment_specific_boost`, `equipment_type_boost`,
`universal_boost`/`generic_boost` by scope for GENERIC), and a SEMANTIC
result keeps `boosted_score = rrf_score` exactly (multiplier 1) — both in
`_apply_tier_boost` and in Mode B's explicit semantic tagging; for
`rrf_score = 1/20` and `equipment_specific_boost = 3/2` the boosted score is
`3/40` (0.05 · 1.5 = 0.075). -/
theorem claim_C4_boost_composition :
    (∀ (st : Settings) (r : RetrievalResult),
      (r.match_tier = MatchTier.EQUIPMENT_SPECIFIC →
        applyTierBoost st r = r.rrf_score * st.equipment_specific_boost)
      ∧ (r.match_tier = MatchTier.EQUIPMENT_TYPE →
        applyTierBoost st r = r.rrf_score * st.equipment_type_boost)
      ∧ (r.match_tier = MatchTier.GENERIC →
        applyTierBoost st r = r.rrf_score *
          (if pyLower (mgetStr r.metadata "lesson_scope") = "universal" then
            st.universal_boost else st.generic_boost))
      ∧ (r.match_tier = MatchTier.SEMANTIC → applyTierBoost st r = r.rrf_score)
      ∧ (tagSEM r).boosted_score = r.rrf_score
      ∧ (tagES st r).boosted_score = r.rrf_score * st.equipment_specific_boost)
    ∧ applyTierBoost ⟨60, 3/2, 6/5, 11/10, 13/10⟩
        ⟨"d", "c", [], 0, 0, 1/20, 0, 1, 0, MatchTier.EQUIPMENT_SPECIFIC⟩ = 3/40 := by
  constructor
  · intro st r
    refine ⟨?_, ?_, ?_, ?_, rfl, rfl⟩
    · intro h
      rw [applyTierBoost]
      simp only [h]
      rfl
    · intro h
      rw [applyTierBoost]
      simp only [h]
      rfl
    · intro h
      rw [applyTierBoost]
      simp only [h]
      rfl
    · intro h
      rw [applyTierBoost]
      simp only [h]
      show r.rrf_score * 1 = r.rrf_score
      exact mul_one r.rrf_score
  · rw [applyTierBoost]
    norm_num

/-- Witness for C4 at the spec's numeric example and at a SEMANTIC result. -/
theorem claim_C4_witness :
    ((⟨"d", "c", [], 0, 0, 1/20, 0, 1, 0, MatchTier.EQUIPMENT_SPECIFIC⟩ :
        RetrievalResult).match_tier = MatchTier.EQUIPMENT_SPECIFIC) ∧
    applyTierBoost ⟨60, 3/2, 6/5, 11/10, 13/10⟩
      ⟨"d", "c", [], 0, 0, 1/20, 0, 1, 0, MatchTier.EQUIPMENT_SPECIFIC⟩ =
      (⟨"d", "c", [], 0, 0, 1/20, 0, 1, 0, MatchTier.EQUIPMENT_SPECIFIC⟩ :
        RetrievalResult).rrf_score * (⟨60, 3/2, 6/5, 11/10, 13/10⟩ :
        Settings).equipment_specific_boost ∧
    ((⟨"s", "c", [], 0, 0, 1/7, 0, 0, 3, MatchTier.SEMANTIC⟩ :
        RetrievalResult).match_tier = MatchTier.SEMANTIC) ∧
    applyTierBoost ⟨60, 3/2, 6/5, 11/10, 13/10⟩
      ⟨"s", "c", [], 0, 0, 1/7, 0, 0, 3, MatchTier.SEMANTIC⟩ =
      (⟨"s", "c", [], 0, 0, 1/7, 0, 0, 3, MatchTier.SEMANTIC⟩ :
        RetrievalResult).rrf_score :=
  ⟨rfl,
    (claim_C4_boost_composition.1 ⟨60, 3/2, 6/5, 11/10, 13/10⟩
      ⟨"d", "c", [], 0, 0, 1/20, 0, 1, 0, MatchTier.EQUIPMENT_SPECIFIC⟩).1 rfl,
    rfl,
    (claim_C4_boost_composition.1 ⟨60, 3/2, 6/5, 11/10, 13/10⟩
      ⟨"s", "c", [], 0, 0, 1/7, 0, 0, 3, MatchTier.SEMANTIC⟩).2.2.2.1 rfl⟩

theorem upsertOne_keys_superset (c : ChromaCollection) (e : ChromaEntry) (x : String)
    (hx : x ∈ c.entries.map (fun y => y.id)) :
    x ∈ (c.upsertOne e).entries.map (fun y => y.id) := by
  rw [ChromaCollection.upsertOne]
  split
  · rcases List.mem_map.mp hx with ⟨y, hy, hye⟩
    by_cases hid : y.id = e.id
    · have : e ∈ (c.entries.map (fun z => if z.id == e.id then e else z)) := by
        apply List.mem_map.mpr
        exact ⟨y, hy, by simp [hid]⟩
      subst hye
      rw [hid]
      exact List.mem_map.mpr ⟨e, this, rfl⟩
    · have : y ∈ (c.entries.map (fun z => if z.id == e.id then e else z)) := by
        apply List.mem_map.mpr
        exact ⟨y, hy, by simp [hid]⟩
      exact List.mem_map.mpr ⟨y, this, hye⟩
  · simp only [List.map_append]
    exact List.mem_append.mpr (Or.inl hx)

theorem upsertOne_key_mem (c : ChromaCollection) (e : ChromaEntry) :
    e.id ∈ (c.upsertOne e).entries.map (fun y => y.id) := by
  rw [ChromaCollection.upsertOne]
  split
  · rename_i hany
    rcases List.any_eq_true.mp hany with ⟨y, hy, hye⟩
    rw [beq_iff_eq] at hye
    apply List.mem_map.mpr
    refine ⟨e, ?_, rfl⟩
    apply List.mem_map.mpr
    exact ⟨y, hy, by simp [hye]⟩
  · simp

theorem upsertAll_keys_superset (es : List ChromaEntry) :
    ∀ (c : ChromaCollection) (x : String),
    x ∈ c.entries.map (fun y => y.id) →
    x ∈ (c.upsertAll es).entries.map (fun y => y.id) := by
  induction es with
  | nil => intro c x hx; exact hx
  | cons e es ih =>
    intro c x hx
    exact ih (c.upsertOne e) x (upsertOne_keys_superset c e x hx)

theorem upsertAll_keys_mem (es : List ChromaEntry) :
    ∀ (c : ChromaCollection), ∀ e ∈ es,
    e.id ∈ (c.upsertAll es).entries.map (fun y => y.id) := by
  induction es with
  | nil => intro c e he; exact absurd he (by simp)
  | cons a es ih =>
    intro c e he
    rcases List.mem_cons.mp he with he | he
    · subst he
      exact upsertAll_keys_superset es (c.upsertOne e) e.id (upsertOne_key_mem c e)
    · exact ih (c.upsertOne a) e he

theorem upsertOne_count_of_mem (c : ChromaCollection) (e : ChromaEntry)
    (h : e.id ∈ c.entries.map (fun y => y.id)) :
    (c.upsertOne e).count = c.count ∧
    (c.upsertOne e).entries.map (fun y => y.id) = c.entries.map (fun y => y.id) := by
  have hany : c.entries.any (fun x => x.id == e.id) = true := by
    rcases List.mem_map.mp h with ⟨y, hy, hye⟩
    exact List.any_eq_true.mpr ⟨y, hy, by simp [hye]⟩
  rw [ChromaCollection.upsertOne, if_pos hany]
  constructor
  · simp [ChromaCollection.count]
  · rw [List.map_map]
    apply List.map_congr_left
    intro y _
    simp only [Function.comp]
    by_cases hid : y.id = e.id
    · simp [hid]
    · simp [hid]

theorem upsertAll_count_of_all_mem (es : List ChromaEntry) :
    ∀ (c : ChromaCollection),
    (∀ e ∈ es, e.id ∈ c.entries.map (fun y => y.id)) →
    (c.upsertAll es).count = c.count := by
  induction es with
  | nil => intro c _; rfl
  | cons e es ih =>
    intro c hall
    have h1 := upsertOne_count_of_mem c e (hall e (List.mem_cons_self e es))
    show (ChromaCollection.upsertAll (c.upsertOne e) es).count = c.count
    rw [ih (c.upsertOne e) (fun x hx => by
      rw [h1.2]
      exact hall x (List.mem_cons_of_mem e hx))]
    exact h1.1

theorem upsertOne_keys_nodup (c : ChromaCollection) (e : ChromaEntry)
    (h : (c.entries.map (fun y => y.id)).Nodup) :
    ((c.upsertOne e).entries.map (fun y => y.id)).Nodup := by
  by_cases hmem : e.id ∈ c.entries.map (fun y => y.id)
  · rw [(upsertOne_count_of_mem c e hmem).2]
    exact h
  · have hany : c.entries.any (fun x => x.id == e.id) = false := by
      simp only [List.any_eq_false, beq_iff_eq]
      intro x hx hc
      exact hmem (hc ▸ List.mem_map_of_mem _ hx)
    rw [ChromaCollection.upsertOne, hany]
    simp only [Bool.false_eq_true, if_false, List.map_append]
    rw [List.nodup_append]
    exact ⟨h, by simp, by simpa using fun hc => hmem hc⟩

theorem upsertAll_keys_nodup (es : List ChromaEntry) :
    ∀ (c : ChromaCollection),
    (c.entries.map (fun y => y.id)).Nodup →
    ((c.upsertAll es).entries.map (fun y => y.id)).Nodup := by
  induction es with
  | nil => intro c h; exact h
  | cons e es ih =>
    intro c h
    exact ih (c.upsertOne e) (upsertOne_keys_nodup c e h)

/-- C6 counterexample: `BM25Search.add_documents` appends unconditionally,
so re-adding a document with an already-present id (here with different
content) duplicates it and changes `get_document_count` from 1 to 2 — the
claimed idempotence fails for the lexical index. -/
theorem claim_C6_counterexample :
    ¬ (((BM25Search.empty.add_documents
          [⟨"L1", "first content", []⟩]).add_documents
          [⟨"L1", "replaced content", []⟩]).get_document_count =
        (BM25Search.empty.add_documents
          [⟨"L1", "first content", []⟩]).get_document_count) := by
  decide

/-- C6 amended: the dense index is idempotent per id — a repeat
`add_documents` of the same documents upserts existing ids, leaving the
entry count unchanged, and upserting never introduces a duplicate id — but
`BM25Search.add_documents` appends unconditionally, so every call grows
`get_document_count` by the number of documents passed, including repeats of
ids already indexed. -/
theorem claim_C6_indexing_idempotence :
    (∀ (c : ChromaCollection) (docs : List LCDocument),
      ((c.entries.map (fun y => y.id)).Nodup →
        ((VectorStore.add_documents c docs).entries.map (fun y => y.id)).Nodup)
      ∧ (VectorStore.add_documents (VectorStore.add_documents c docs) docs).count =
          (VectorStore.add_documents c docs).count)
    ∧ (∀ (s : BM25Search) (ds : List DocDict),
      (s.add_documents ds).get_document_count = s.get_document_count + ds.length) := by
  constructor
  · intro c docs
    constructor
    · intro h
      exact upsertAll_keys_nodup _ c h
    · apply upsertAll_count_of_all_mem
      intro e he
      exact upsertAll_keys_mem _ c e he
  · intro s ds
    simp [BM25Search.add_documents, BM25Search.get_document_count]

/-- Witness for C6's amended statement at a concrete store and document. -/
theorem claim_C6_witness :
    ((⟨[]⟩ : ChromaCollection).entries.map (fun y => y.id)).Nodup ∧
    (((VectorStore.add_documents ⟨[]⟩
        [⟨"pump seal", [("lesson_id", MetaVal.s "LL-001")]⟩]).entries.map
        (fun y => y.id)).Nodup
      ∧ (VectorStore.add_documents (VectorStore.add_documents ⟨[]⟩
          [⟨"pump seal", [("lesson_id", MetaVal.s "LL-001")]⟩])
          [⟨"pump seal", [("lesson_id", MetaVal.s "LL-001")]⟩]).count =
        (VectorStore.add_documents ⟨[]⟩
          [⟨"pump seal", [("lesson_id", MetaVal.s "LL-001")]⟩]).count) :=
  ⟨by decide,
    ⟨(claim_C6_indexing_idempotence.1 ⟨[]⟩
        [⟨"pump seal", [("lesson_id", MetaVal.s "LL-001")]⟩]).1 (by decide),
      (claim_C6_indexing_idempotence.1 ⟨[]⟩
        [⟨"pump seal", [("lesson_id", MetaVal.s "LL-001")]⟩]).2⟩⟩

/-- C8: a query that tokenizes to zero tokens (for example the empty
string) makes lexical search return an empty list, not an error; and an
empty sparse list is not an error for fusion either — every fused entry then
has `sparse_rank = 0` and its RRF score is the dense contribution alone. -/
theorem claim_C8_empty_query :
    tokenize "" = []
    ∧ (∀ (getScores : List String → List Rat) (s : BM25Search) (q : String)
        (n : Nat) (f : Option Metadata),
      tokenize q = [] → BM25Search.search getScores s q n f = [])
    ∧ (∀ (k : Rat) (dense : List SearchHit),
      (dense.map (fun x => x.id)).Nodup →
      ∀ r ∈ combineResults k dense [],
        r.sparse_rank = 0 ∧ r.rrf_score = rrfScore k r.dense_rank) := by
  refine ⟨rfl, ?_, ?_⟩
  · intro gs s q n f hq
    simp [BM25Search.search, hq]
  · intro k dense hd r hr
    have hnil : (([] : List SearchHit).map (fun x => x.id)).Nodup := by simp
    rcases combineResults_mem k dense [] hd hnil r hr with ⟨hdr, hsr, hrrf⟩
    have hs0 : r.sparse_rank = 0 := by rw [hsr]; rfl
    refine ⟨hs0, ?_⟩
    rw [hrrf, hs0, rrfScore_of_nonpos le_rfl, add_zero]

/-- Witness for C8: the empty query against a concrete index, and fusion of
one dense hit with an empty sparse list. -/
theorem claim_C8_witness :
    tokenize "" = [] ∧
    BM25Search.search (fun _ => []) ⟨[], false⟩ "" 5 none = [] ∧
    (([⟨"a", "A", [], 1, 0⟩] : List SearchHit).map (fun x => x.id)).Nodup ∧
    (⟨"a", "A", [], 1, 0, 1/61, 0, 1, 0, MatchTier.SEMANTIC⟩ : RetrievalResult) ∈
      combineResults 60 [⟨"a", "A", [], 1, 0⟩] [] ∧
    ((⟨"a", "A", [], 1, 0, 1/61, 0, 1, 0, MatchTier.SEMANTIC⟩ :
        RetrievalResult).sparse_rank = 0 ∧
      (⟨"a", "A", [], 1, 0, 1/61, 0, 1, 0, MatchTier.SEMANTIC⟩ :
        RetrievalResult).rrf_score = rrfScore 60
        (⟨"a", "A", [], 1, 0, 1/61, 0, 1, 0, MatchTier.SEMANTIC⟩ :
          RetrievalResult).dense_rank) :=
  ⟨claim_C8_empty_query.1,
    claim_C8_empty_query.2.1 (fun _ => []) ⟨[], false⟩ "" 5 none (by decide),
    by decide,
    by norm_num [combineResults, processDense, processSparse, upsertDense,
      upsertSparse, fuse, setDense, setSparse, freshEntry, rrfScore],
    claim_C8_empty_query.2.2 60 [⟨"a", "A", [], 1, 0⟩] (by decide)
      ⟨"a", "A", [], 1, 0, 1/61, 0, 1, 0, MatchTier.SEMANTIC⟩
      (by norm_num [combineResults, processDense, processSparse, upsertDense,
        upsertSparse, fuse, setDense, setSparse, freshEntry, rrfScore])⟩

theorem id_updD (h : SearchHit) (n : Int) (r : RetrievalResult) :
    (if r.id == h.id then setDense h n r else r).id = r.id := by
  split <;> rfl

theorem upsertDense_ids (c : List RetrievalResult) (h : SearchHit) (n : Int) :
    (upsertDense c h n).map (fun x => x.id) =
      if c.any (fun r => r.id == h.id) then c.map (fun x => x.id)
      else c.map (fun x => x.id) ++ [h.id] := by
  rw [upsertDense]
  split
  · exact ids_map_preserved c _ (id_updD h n)
  · simp only [List.map_append, List.map_cons, List.map_nil]
    rfl

theorem upsertSparse_ids (c : List RetrievalResult) (h : SearchHit) (n : Int) :
    (upsertSparse c h n).map (fun x => x.id) =
      if c.any (fun r => r.id == h.id) then c.map (fun x => x.id)
      else c.map (fun x => x.id) ++ [h.id] := by
  rw [upsertSparse]
  split
  · exact ids_map_preserved c _ (id_upd1 h n)
  · simp only [List.map_append, List.map_cons, List.map_nil]
    rfl

theorem upsertDense_ids_nodup (c : List RetrievalResult) (h : SearchHit) (n : Int)
    (hnd : (c.map (fun x => x.id)).Nodup) :
    ((upsertDense c h n).map (fun x => x.id)).Nodup := by
  rw [upsertDense_ids]
  split
  · exact hnd
  · rename_i hany
    rw [List.nodup_append]
    refine ⟨hnd, by simp, ?_⟩
    intro x hx
    simp only [List.mem_singleton]
    intro hc
    subst hc
    rcases List.mem_map.mp hx with ⟨r, hr, hre⟩
    rw [Bool.not_eq_true, List.any_eq_false] at hany
    exact absurd (by simp [hre]) (hany r hr)

theorem upsertSparse_ids_nodup (c : List RetrievalResult) (h : SearchHit) (n : Int)
    (hnd : (c.map (fun x => x.id)).Nodup) :
    ((upsertSparse c h n).map (fun x => x.id)).Nodup := by
  rw [upsertSparse_ids]
  split
  · exact hnd
  · rename_i hany
    rw [List.nodup_append]
    refine ⟨hnd, by simp, ?_⟩
    intro x hx
    simp only [List.mem_singleton]
    intro hc
    subst hc
    rcases List.mem_map.mp hx with ⟨r, hr, hre⟩
    rw [Bool.not_eq_true, List.any_eq_false] at hany
    exact absurd (by simp [hre]) (hany r hr)

theorem processDense_ids_nodup (hs : List SearchHit) :
    ∀ (c : List RetrievalResult) (n : Int),
    (c.map (fun x => x.id)).Nodup →
    ((processDense c n hs).map (fun x => x.id)).Nodup := by
  induction hs with
  | nil => intro c n h; exact h
  | cons h hs ih =>
    intro c n hnd
    exact ih (upsertDense c h n) (n + 1) (upsertDense_ids_nodup c h n hnd)

theorem processSparse_ids_nodup (hs : List SearchHit) :
    ∀ (c : List RetrievalResult) (n : Int),
    (c.map (fun x => x.id)).Nodup →
    ((processSparse c n hs).map (fun x => x.id)).Nodup := by
  induction hs with
  | nil => intro c n h; exact h
  | cons h hs ih =>
    intro c n hnd
    exact ih (upsertSparse c h n) (n + 1) (upsertSparse_ids_nodup c h n hnd)

theorem combineResults_ids_nodup (k : Rat) (dense sparse : List SearchHit) :
    ((combineResults k dense sparse).map (fun x => x.id)).Nodup := by
  rw [combineResults, ids_map_preserved _ _ (fuse_id k)]
  exact processSparse_ids_nodup sparse (processDense [] 1 dense) 1
    (processDense_ids_nodup dense [] 1 (by simp))

theorem tagFor_id (st : Settings) (t : MatchTier) (r : RetrievalResult) :
    (tagFor st t r).id = r.id := by
  cases t <;> rfl

theorem tagFor_tier (st : Settings) (t : MatchTier) (r : RetrievalResult) :
    (tagFor st t r).match_tier = t := by
  cases t <;> rfl

theorem addTierAll_eq (tag : RetrievalResult → RetrievalResult)
    (hid : ∀ r, (tag r).id = r.id) (rs : List RetrievalResult) :
    ∀ (acc ts : List RetrievalResult),
    (rs.map (fun x => x.id)).Nodup →
    (∀ r ∈ rs, ∀ x ∈ acc, x.id ≠ r.id) →
    addTierAll tag (acc, ts) rs = (acc ++ rs.map tag, ts ++ rs.map tag) := by
  induction rs with
  | nil => intro acc ts _ _; simp [addTierAll]
  | cons r rs ih =>
    intro acc ts hnd hfresh
    simp only [List.map_cons, List.nodup_cons] at hnd
    have hany : acc.any (fun x => x.id == (tag r).id) = false := by
      simp only [List.any_eq_false, beq_iff_eq, hid]
      exact fun x hx => hfresh r (List.mem_cons_self r rs) x hx
    show addTierAll tag (dictInsertR acc (tag r), ts ++ [tag r]) rs = _
    rw [dictInsertR, hany]
    simp only [Bool.false_eq_true, if_false]
    rw [ih (acc ++ [tag r]) (ts ++ [tag r]) hnd.2 ?hfresh]
    · simp
    case hfresh =>
      intro g hg x hx
      rcases List.mem_append.mp hx with hx | hx
      · exact hfresh g (List.mem_cons_of_mem r hg) x hx
      · have hxe : x = tag r := by simpa using hx
        subst hxe
        rw [hid]
        intro hc
        exact hnd.1 (hc ▸ List.mem_map_of_mem (fun y => y.id) hg)

theorem addTierNew_eq (tag : RetrievalResult → RetrievalResult)
    (hid : ∀ r, (tag r).id = r.id) (rs : List RetrievalResult) :
    ∀ (acc ts : List RetrievalResult),
    (rs.map (fun x => x.id)).Nodup →
    addTierNew tag (acc, ts) rs =
      (acc ++ (freshFilter acc rs).map tag, ts ++ (freshFilter acc rs).map tag) := by
  induction rs with
  | nil => intro acc ts _; simp [addTierNew, freshFilter]
  | cons r rs ih =>
    intro acc ts hnd
    simp only [List.map_cons, List.nodup_cons] at hnd
    show addTierNew tag
      (if acc.any (fun x => x.id == r.id) then (acc, ts)
        else (acc ++ [tag r], ts ++ [tag r])) rs = _
    by_cases hany : acc.any (fun x => x.id == r.id) = true
    · rw [if_pos hany]
      rw [ih acc ts hnd.2]
      have hfe : freshFilter acc (r :: rs) = freshFilter acc rs := by
        rw [freshFilter, List.filter_cons]
        simp [hany, freshFilter]
      rw [hfe]
    · rw [if_neg hany]
      rw [ih (acc ++ [tag r]) (ts ++ [tag r]) hnd.2]
      have hfe : freshFilter acc (r :: rs) = r :: freshFilter acc rs := by
        rw [freshFilter, List.filter_cons]
        simp only [Bool.not_eq_true] at hany
        simp [hany, freshFilter]
      have hff : freshFilter (acc ++ [tag r]) rs = freshFilter acc rs := by
        rw [freshFilter, freshFilter]
        apply List.filter_congr
        intro x hx
        simp only [List.any_append, Bool.not_eq_true, Bool.or_eq_false_iff]
        have : ([tag r].any (fun y => y.id == x.id)) = false := by
          simp only [List.any_cons, List.any_nil, Bool.or_false, hid]
          rw [beq_eq_false_iff_ne]
          intro hc
          exact hnd.1 (by rw [hc]; exact List.mem_map_of_mem (fun y => y.id) hx)
        rw [this]
        cases acc.any (fun y => y.id == x.id) <;> simp
      rw [hfe, hff]
      simp

theorem multiTier_combined (st : Settings) (jobTag jobType : Option String)
    (inp : TierInputs) (total : Nat) :
    (multiTierSearch st jobTag jobType inp total).1 =
      (sortByDesc (fun r => r.boosted_score)
        (allResultsList st jobTag jobType inp)).take total := by
  have hfreshnil : ∀ r ∈ combineResults st.rrf_k inp.eqDense inp.eqSparse,
      ∀ x ∈ ([] : List RetrievalResult), x.id ≠ r.id := by
    intro r _ x hx
    exact absurd hx (by simp)
  by_cases hjt : hasVal jobTag = true <;> by_cases hjy : hasVal jobType = true
  · simp only [multiTierSearch, allResultsList, fusedTier, tagFor, hjt, hjy, if_true]
    rw [addTierAll_eq (tagES st) (fun r => rfl) _ [] []
        (combineResults_ids_nodup _ _ _) hfreshnil]
    simp only [List.nil_append]
    rw [addTierNew_eq (tagET st) (fun r => rfl) _ _ _ (combineResults_ids_nodup _ _ _)]
    rw [addTierNew_eq (tagGEN st) (fun r => rfl) _ _ _ (combineResults_ids_nodup _ _ _)]
    rw [addTierNew_eq tagSEM (fun r => rfl) _ _ _ (combineResults_ids_nodup _ _ _)]
  · simp only [Bool.not_eq_true] at hjy
    simp only [multiTierSearch, allResultsList, fusedTier, tagFor, hjt, hjy, if_true,
      Bool.false_eq_true, if_false]
    rw [addTierAll_eq (tagES st) (fun r => rfl) _ [] []
        (combineResults_ids_nodup _ _ _) hfreshnil]
    simp only [List.nil_append]
    rw [addTierNew_eq (tagGEN st) (fun r => rfl) _ _ _ (combineResults_ids_nodup _ _ _)]
    rw [addTierNew_eq tagSEM (fun r => rfl) _ _ _ (combineResults_ids_nodup _ _ _)]
    simp only [freshFilter, List.filter_nil, List.map_nil, List.append_nil,
      List.append_assoc]
  · simp only [Bool.not_eq_true] at hjt
    simp only [multiTierSearch, allResultsList, fusedTier, tagFor, hjt, hjy, if_true,
      Bool.false_eq_true, if_false]
    rw [addTierNew_eq (tagET st) (fun r => rfl) _ _ _ (combineResults_ids_nodup _ _ _)]
    rw [addTierNew_eq (tagGEN st) (fun r => rfl) _ _ _ (combineResults_ids_nodup _ _ _)]
    rw [addTierNew_eq tagSEM (fun r => rfl) _ _ _ (combineResults_ids_nodup _ _ _)]
    simp only [List.map_nil, List.nil_append, List.append_assoc]
  · simp only [Bool.not_eq_true] at hjt hjy
    simp only [multiTierSearch, allResultsList, fusedTier, tagFor, hjt, hjy,
      Bool.false_eq_true, if_false]
    rw [addTierNew_eq (tagGEN st) (fun r => rfl) _ _ _ (combineResults_ids_nodup _ _ _)]
    rw [addTierNew_eq tagSEM (fun r => rfl) _ _ _ (combineResults_ids_nodup _ _ _)]
    simp only [freshFilter, List.filter_nil, List.map_nil, List.nil_append,
      List.append_nil, List.append_assoc]

theorem any_id_of_mem {l : List RetrievalResult} {y : RetrievalResult} (hy : y ∈ l) :
    (l.any (fun x => x.id == y.id)) = true :=
  List.any_eq_true.mpr ⟨y, hy, by simp⟩

theorem any_map_id (tag : RetrievalResult → RetrievalResult)
    (hid : ∀ r, (tag r).id = r.id) (c : List RetrievalResult) (i : String) :
    ((c.map tag).any (fun x => x.id == i)) = (c.any (fun x => x.id == i)) := by
  induction c with
  | nil => rfl
  | cons r rs ih => simp only [List.map_cons, List.any_cons, hid, ih]

theorem mem_freshFilter {acc l : List RetrievalResult} {x : RetrievalResult} :
    x ∈ freshFilter acc l ↔
      x ∈ l ∧ (acc.any (fun y => y.id == x.id)) = false := by
  rw [freshFilter, List.mem_filter]
  simp

theorem freshFilter_ids_nodup (acc l : List RetrievalResult)
    (h : (l.map (fun x => x.id)).Nodup) :
    ((freshFilter acc l).map (fun x => x.id)).Nodup :=
  List.Nodup.sublist (List.Sublist.map _ (List.filter_sublist l)) h

theorem ids_nodup_append (a b : List RetrievalResult)
    (ha : (a.map (fun x => x.id)).Nodup) (hb : (b.map (fun x => x.id)).Nodup)
    (hd : ∀ x ∈ b, (a.any (fun y => y.id == x.id)) = false) :
    ((a ++ b).map (fun x => x.id)).Nodup := by
  rw [List.map_append, List.nodup_append]
  refine ⟨ha, hb, ?_⟩
  intro i hia hib
  rcases List.mem_map.mp hib with ⟨x, hx, hxe⟩
  have := hd x hx
  rw [List.any_eq_false] at this
  rcases List.mem_map.mp hia with ⟨y, hy, hye⟩
  exact absurd (by simp [hye, hxe]) (this y hy)

theorem fresh_propagate (tag : RetrievalResult → RetrievalResult)
    (hid : ∀ r, (tag r).id = r.id) (acc c : List RetrievalResult) (i : String)
    (hacc : (acc.any (fun x => x.id == i)) = false)
    (hmap : (((freshFilter acc c).map tag).any (fun x => x.id == i)) = false) :
    (c.any (fun x => x.id == i)) = false := by
  rw [List.any_eq_false]
  intro z hz
  simp only [beq_iff_eq]
  intro hzi
  have hzf : z ∈ freshFilter acc c := by
    rw [mem_freshFilter]
    exact ⟨hz, by rw [hzi]; exact hacc⟩
  rw [List.any_eq_false] at hmap
  exact absurd (by simp [hid, hzi]) (hmap (tag z) (List.mem_map_of_mem tag hzf))

theorem fusedTier_ids_nodup (st : Settings) (jobTag jobType : Option String)
    (inp : TierInputs) (t : MatchTier) :
    ((fusedTier st jobTag jobType inp t).map (fun x => x.id)).Nodup := by
  cases t <;> rw [fusedTier] <;>
    first
    | (split
       · exact combineResults_ids_nodup _ _ _
       · simp)
    | exact combineResults_ids_nodup _ _ _

theorem allResultsList_spec (st : Settings) (jobTag jobType : Option String)
    (inp : TierInputs) :
    (((allResultsList st jobTag jobType inp).map (fun r => r.id)).Nodup)
    ∧ ∀ r ∈ allResultsList st jobTag jobType inp,
      r.match_tier = firstTierOf st jobTag jobType inp r.id ∧
      r ∈ tierContribution st jobTag jobType inp
        (firstTierOf st jobTag jobType inp r.id) := by
  set c1 := fusedTier st jobTag jobType inp MatchTier.EQUIPMENT_SPECIFIC with hc1
  set c2 := fusedTier st jobTag jobType inp MatchTier.EQUIPMENT_TYPE with hc2
  set c3 := fusedTier st jobTag jobType inp MatchTier.GENERIC with hc3
  set c4 := fusedTier st jobTag jobType inp MatchTier.SEMANTIC with hc4
  have hn1 : (c1.map (fun x => x.id)).Nodup := fusedTier_ids_nodup st jobTag jobType inp _
  have hn2 : (c2.map (fun x => x.id)).Nodup := fusedTier_ids_nodup st jobTag jobType inp _
  have hn3 : (c3.map (fun x => x.id)).Nodup := fusedTier_ids_nodup st jobTag jobType inp _
  have hn4 : (c4.map (fun x => x.id)).Nodup := fusedTier_ids_nodup st jobTag jobType inp _
  have harl : allResultsList st jobTag jobType inp =
      c1.map (tagFor st MatchTier.EQUIPMENT_SPECIFIC) ++
      (freshFilter (c1.map (tagFor st MatchTier.EQUIPMENT_SPECIFIC)) c2).map
        (tagFor st MatchTier.EQUIPMENT_TYPE) ++
      (freshFilter (c1.map (tagFor st MatchTier.EQUIPMENT_SPECIFIC) ++
        (freshFilter (c1.map (tagFor st MatchTier.EQUIPMENT_SPECIFIC)) c2).map
          (tagFor st MatchTier.EQUIPMENT_TYPE)) c3).map (tagFor st MatchTier.GENERIC) ++
      (freshFilter (c1.map (tagFor st MatchTier.EQUIPMENT_SPECIFIC) ++
        (freshFilter (c1.map (tagFor st MatchTier.EQUIPMENT_SPECIFIC)) c2).map
          (tagFor st MatchTier.EQUIPMENT_TYPE) ++
        (freshFilter (c1.map (tagFor st MatchTier.EQUIPMENT_SPECIFIC) ++
          (freshFilter (c1.map (tagFor st MatchTier.EQUIPMENT_SPECIFIC)) c2).map
            (tagFor st MatchTier.EQUIPMENT_TYPE)) c3).map (tagFor st MatchTier.GENERIC))
        c4).map (tagFor st MatchTier.SEMANTIC) := rfl
  set t1 := c1.map (tagFor st MatchTier.EQUIPMENT_SPECIFIC) with ht1
  set f2 := (freshFilter t1 c2).map (tagFor st MatchTier.EQUIPMENT_TYPE) with hf2
  set f3 := (freshFilter (t1 ++ f2) c3).map (tagFor st MatchTier.GENERIC) with hf3
  set f4 := (freshFilter (t1 ++ f2 ++ f3) c4).map (tagFor st MatchTier.SEMANTIC) with hf4
  have hnt1 : (t1.map (fun x => x.id)).Nodup := by
    rw [ht1, ids_map_preserved c1 _ (tagFor_id st _)]
    exact hn1
  have hnf2 : (f2.map (fun x => x.id)).Nodup := by
    rw [hf2, ids_map_preserved _ _ (tagFor_id st _)]
    exact freshFilter_ids_nodup t1 c2 hn2
  have hnf3 : (f3.map (fun x => x.id)).Nodup := by
    rw [hf3, ids_map_preserved _ _ (tagFor_id st _)]
    exact freshFilter_ids_nodup _ c3 hn3
  have hnf4 : (f4.map (fun x => x.id)).Nodup := by
    rw [hf4, ids_map_preserved _ _ (tagFor_id st _)]
    exact freshFilter_ids_nodup _ c4 hn4
  have hd2 : ∀ x ∈ f2, (t1.any (fun y => y.id == x.id)) = false := by
    intro x hx
    rcases List.mem_map.mp hx with ⟨y, hy, hye⟩
    rcases mem_freshFilter.mp hy with ⟨_, hfr⟩
    rw [← hye, tagFor_id]
    exact hfr
  have hd3 : ∀ x ∈ f3, ((t1 ++ f2).any (fun y => y.id == x.id)) = false := by
    intro x hx
    rcases List.mem_map.mp hx with ⟨y, hy, hye⟩
    rcases mem_freshFilter.mp hy with ⟨_, hfr⟩
    rw [← hye, tagFor_id]
    exact hfr
  have hd4 : ∀ x ∈ f4, ((t1 ++ f2 ++ f3).any (fun y => y.id == x.id)) = false := by
    intro x hx
    rcases List.mem_map.mp hx with ⟨y, hy, hye⟩
    rcases mem_freshFilter.mp hy with ⟨_, hfr⟩
    rw [← hye, tagFor_id]
    exact hfr
  have hn12 : ((t1 ++ f2).map (fun x => x.id)).Nodup :=
    ids_nodup_append t1 f2 hnt1 hnf2 hd2
  have hn123 : ((t1 ++ f2 ++ f3).map (fun x => x.id)).Nodup :=
    ids_nodup_append (t1 ++ f2) f3 hn12 hnf3 hd3
  have hn1234 : ((t1 ++ f2 ++ f3 ++ f4).map (fun x => x.id)).Nodup :=
    ids_nodup_append (t1 ++ f2 ++ f3) f4 hn123 hnf4 hd4
  rw [harl]
  refine ⟨hn1234, ?_⟩
  intro r hr
  rcases List.mem_append.mp hr with hr0 | hr4
  rcases List.mem_append.mp hr0 with hr0 | hr3
  rcases List.mem_append.mp hr0 with hr1 | hr2
  · -- tier 1
    rcases List.mem_map.mp hr1 with ⟨y, hy, hye⟩
    have hid : r.id = y.id := by rw [← hye, tagFor_id]
    have hcond1 : (c1.any (fun x => x.id == r.id)) = true := by
      rw [hid]
      exact any_id_of_mem hy
    have hft : firstTierOf st jobTag jobType inp r.id = MatchTier.EQUIPMENT_SPECIFIC := by
      rw [firstTierOf, if_pos hcond1]
    refine ⟨by rw [hft, ← hye, tagFor_tier], ?_⟩
    rw [hft, tierContribution, ← hc1, ← hye]
    exact List.mem_map_of_mem _ hy
  · -- tier 2
    rcases List.mem_map.mp hr2 with ⟨y, hy, hye⟩
    rcases mem_freshFilter.mp hy with ⟨hyc2, hyfr⟩
    have hid : r.id = y.id := by rw [← hye, tagFor_id]
    have hcond1 : (c1.any (fun x => x.id == r.id)) = false := by
      rw [hid, ← any_map_id (tagFor st MatchTier.EQUIPMENT_SPECIFIC) (tagFor_id st _) c1]
      exact hyfr
    have hcond2 : (c2.any (fun x => x.id == r.id)) = true := by
      rw [hid]
      exact any_id_of_mem hyc2
    have hft : firstTierOf st jobTag jobType inp r.id = MatchTier.EQUIPMENT_TYPE := by
      rw [firstTierOf, if_neg (by simp [hcond1]), if_pos hcond2]
    refine ⟨by rw [hft, ← hye, tagFor_tier], ?_⟩
    rw [hft, tierContribution, ← hc2, ← hye]
    exact List.mem_map_of_mem _ hyc2
  · -- tier 3
    rcases List.mem_map.mp hr3 with ⟨y, hy, hye⟩
    rcases mem_freshFilter.mp hy with ⟨hyc3, hyfr⟩
    rw [List.any_append, Bool.or_eq_false_iff] at hyfr
    have hid : r.id = y.id := by rw [← hye, tagFor_id]
    have hcond1 : (c1.any (fun x => x.id == r.id)) = false := by
      rw [hid, ← any_map_id (tagFor st MatchTier.EQUIPMENT_SPECIFIC) (tagFor_id st _) c1]
      exact hyfr.1
    have hcond2 : (c2.any (fun x => x.id == r.id)) = false := by
      rw [hid]
      apply fresh_propagate (tagFor st MatchTier.EQUIPMENT_TYPE) (tagFor_id st _) t1 c2
      · exact hyfr.1
      · exact hyfr.2
    have hcond3 : (c3.any (fun x => x.id == r.id)) = true := by
      rw [hid]
      exact any_id_of_mem hyc3
    have hft : firstTierOf st jobTag jobType inp r.id = MatchTier.GENERIC := by
      rw [firstTierOf, if_neg (by simp [hcond1]), if_neg (by simp [hcond2]),
        if_pos hcond3]
    refine ⟨by rw [hft, ← hye, tagFor_tier], ?_⟩
    rw [hft, tierContribution, ← hc3, ← hye]
    exact List.mem_map_of_mem _ hyc3
  · -- tier 4
    rcases List.mem_map.mp hr4 with ⟨y, hy, hye⟩
    rcases mem_freshFilter.mp hy with ⟨hyc4, hyfr⟩
    rw [List.any_append, Bool.or_eq_false_iff] at hyfr
    rcases hyfr with ⟨hyfr12, hyfr3⟩
    rw [List.any_append, Bool.or_eq_false_iff] at hyfr12
    have hid : r.id = y.id := by rw [← hye, tagFor_id]
    have hcond1 : (c1.any (fun x => x.id == r.id)) = false := by
      rw [hid, ← any_map_id (tagFor st MatchTier.EQUIPMENT_SPECIFIC) (tagFor_id st _) c1]
      exact hyfr12.1
    have hcond2 : (c2.any (fun x => x.id == r.id)) = false := by
      rw [hid]
      apply fresh_propagate (tagFor st MatchTier.EQUIPMENT_TYPE) (tagFor_id st _) t1 c2
      · exact hyfr12.1
      · exact hyfr12.2
    have hcond3 : (c3.any (fun x => x.id == r.id)) = false := by
      rw [hid]
      apply fresh_propagate (tagFor st MatchTier.GENERIC) (tagFor_id st _) (t1 ++ f2) c3
      · rw [List.any_append, Bool.or_eq_false_iff]
        exact hyfr12
      · exact hyfr3
    have hft : firstTierOf st jobTag jobType inp r.id = MatchTier.SEMANTIC := by
      rw [firstTierOf, if_neg (by simp [hcond1]), if_neg (by simp [hcond2]),
        if_neg (by simp [hcond3])]
    refine ⟨by rw [hft, ← hye, tagFor_tier], ?_⟩
    rw [hft, tierContribution, ← hc4, ← hye]
    exact List.mem_map_of_mem _ hyc4

/-- C1: in Mode B every document id appears at most once in the combined
output (distinct ids), and each returned result carries exactly the
`match_tier` of the first tier (in precedence order EQUIPMENT_SPECIFIC,
EQUIPMENT_TYPE, GENERIC, SEMANTIC) whose fused candidates contain its id,
being exactly that tier's tagged-and-boosted entry — later tiers never
re-add, re-classify or re-score it. -/
theorem claim_C1_mode_b_dedup (st : Settings) (jobTag jobType : Option String)
    (inp : TierInputs) (total : Nat) :
    (((multiTierSearch st jobTag jobType inp total).1.map (fun r => r.id)).Nodup)
    ∧ ∀ r ∈ (multiTierSearch st jobTag jobType inp total).1,
      r.match_tier = firstTierOf st jobTag jobType inp r.id ∧
      r ∈ tierContribution st jobTag jobType inp
        (firstTierOf st jobTag jobType inp r.id) := by
  rw [multiTier_combined]
  have hperm := sortByDesc_perm (fun r => r.boosted_score)
    (allResultsList st jobTag jobType inp)
  constructor
  · have hsorted : ((sortByDesc (fun r => r.boosted_score)
        (allResultsList st jobTag jobType inp)).map (fun r => r.id)).Nodup :=
      (List.Perm.nodup_iff (hperm.map (fun r => r.id))).mpr
        (allResultsList_spec st jobTag jobType inp).1
    exact List.Nodup.sublist
      (List.Sublist.map (fun (r : RetrievalResult) => r.id)
        (List.take_sublist total _)) hsorted
  · intro r hr
    have hr1 : r ∈ sortByDesc (fun x => x.boosted_score)
        (allResultsList st jobTag jobType inp) :=
      (List.take_sublist total _).subset hr
    exact (allResultsList_spec st jobTag jobType inp).2 r (mem_sortByDesc.mp hr1)

/-- Witness for C1: one equipment-specific hit, no other tier input; the
combined output is that single tagged result. -/
theorem claim_C1_witness :
    (((multiTierSearch ⟨60, 3/2, 6/5, 11/10, 13/10⟩ (some "T") none
        ⟨[⟨"a", "A", [], 1, 0⟩], [], [], [], [], [], [], []⟩ 10).1.map
        (fun r => r.id)).Nodup)
    ∧ (⟨"a", "A", [], 1, 0, 1/61, 3/122, 1, 0, MatchTier.EQUIPMENT_SPECIFIC⟩ :
        RetrievalResult) ∈ (multiTierSearch ⟨60, 3/2, 6/5, 11/10, 13/10⟩
        (some "T") none ⟨[⟨"a", "A", [], 1, 0⟩], [], [], [], [], [], [], []⟩ 10).1
    ∧ ((⟨"a", "A", [], 1, 0, 1/61, 3/122, 1, 0, MatchTier.EQUIPMENT_SPECIFIC⟩ :
          RetrievalResult).match_tier =
        firstTierOf ⟨60, 3/2, 6/5, 11/10, 13/10⟩ (some "T") none
          ⟨[⟨"a", "A", [], 1, 0⟩], [], [], [], [], [], [], []⟩
          (⟨"a", "A", [], 1, 0, 1/61, 3/122, 1, 0, MatchTier.EQUIPMENT_SPECIFIC⟩ :
            RetrievalResult).id
      ∧ (⟨"a", "A", [], 1, 0, 1/61, 3/122, 1, 0, MatchTier.EQUIPMENT_SPECIFIC⟩ :
          RetrievalResult) ∈ tierContribution ⟨60, 3/2, 6/5, 11/10, 13/10⟩
          (some "T") none ⟨[⟨"a", "A", [], 1, 0⟩], [], [], [], [], [], [], []⟩
          (firstTierOf ⟨60, 3/2, 6/5, 11/10, 13/10⟩ (some "T") none
            ⟨[⟨"a", "A", [], 1, 0⟩], [], [], [], [], [], [], []⟩
            (⟨"a", "A", [], 1, 0, 1/61, 3/122, 1, 0,
              MatchTier.EQUIPMENT_SPECIFIC⟩ : RetrievalResult).id)) := by
  have hmem : (⟨"a", "A", [], 1, 0, 1/61, 3/122, 1, 0,
      MatchTier.EQUIPMENT_SPECIFIC⟩ : RetrievalResult) ∈
      (multiTierSearch ⟨60, 3/2, 6/5, 11/10, 13/10⟩ (some "T") none
        ⟨[⟨"a", "A", [], 1, 0⟩], [], [], [], [], [], [], []⟩ 10).1 := by
    norm_num [multiTierSearch, addTierAll, addTierNew, dictInsertR, combineResults,
      processDense, processSparse, upsertDense, upsertSparse, fuse, setDense,
      setSparse, freshEntry, rrfScore, tagES, tagGEN, tagSEM, sortByDesc,
      insertByDesc, hasVal]
  exact ⟨(claim_C1_mode_b_dedup ⟨60, 3/2, 6/5, 11/10, 13/10⟩ (some "T") none
      ⟨[⟨"a", "A", [], 1, 0⟩], [], [], [], [], [], [], []⟩ 10).1,
    hmem,
    (claim_C1_mode_b_dedup ⟨60, 3/2, 6/5, 11/10, 13/10⟩ (some "T") none
      ⟨[⟨"a", "A", [], 1, 0⟩], [], [], [], [], [], [], []⟩ 10).2 _ hmem⟩

theorem groupByTier_step_inv (acc : List (MatchTier × List RetrievalResult))
    (r : RetrievalResult)
    (h : ∀ p ∈ acc, (∀ x ∈ p.2, x.match_tier = p.1) ∧ p.2 ≠ []) :
    ∀ p ∈ (if acc.any (fun g => g.1 == r.match_tier) then
        acc.map (fun g => if g.1 == r.match_tier then (g.1, g.2 ++ [r]) else g)
      else acc ++ [(r.match_tier, [r])]),
      (∀ x ∈ p.2, x.match_tier = p.1) ∧ p.2 ≠ [] := by
  intro p hp
  split at hp
  · rcases List.mem_map.mp hp with ⟨g, hg, hge⟩
    by_cases hgt : g.1 = r.match_tier
    · rw [if_pos (by simp [hgt])] at hge
      subst hge
      refine ⟨?_, by simp⟩
      intro x hx
      rcases List.mem_append.mp hx with hx | hx
      · exact (h g hg).1 x hx
      · have : x = r := by simpa using hx
        subst this
        exact hgt.symm
    · rw [if_neg (by simp [hgt])] at hge
      subst hge
      exact h g hg
  · rcases List.mem_append.mp hp with hp | hp
    · exact h p hp
    · have : p = (r.match_tier, [r]) := by simpa using hp
      subst this
      exact ⟨by intro x hx; simpa using (by simpa using hx : x = r) ▸ rfl, by simp⟩

theorem groupByTier_aux_inv (results : List RetrievalResult) :
    ∀ (acc : List (MatchTier × List RetrievalResult)),
    (∀ p ∈ acc, (∀ x ∈ p.2, x.match_tier = p.1) ∧ p.2 ≠ []) →
    ∀ p ∈ results.foldl (fun acc r =>
        if acc.any (fun g => g.1 == r.match_tier) then
          acc.map (fun g => if g.1 == r.match_tier then (g.1, g.2 ++ [r]) else g)
        else acc ++ [(r.match_tier, [r])]) acc,
      (∀ x ∈ p.2, x.match_tier = p.1) ∧ p.2 ≠ [] := by
  induction results with
  | nil => intro acc h; exact h
  | cons r rs ih =>
    intro acc h
    exact ih _ (groupByTier_step_inv acc r h)

theorem groupByTier_inv (results : List RetrievalResult) :
    ∀ p ∈ groupByTier results, (∀ x ∈ p.2, x.match_tier = p.1) ∧ p.2 ≠ [] :=
  groupByTier_aux_inv results [] (by intro p hp; exact absurd hp (by simp))

theorem groupByTier_step_keys (acc : List (MatchTier × List RetrievalResult))
    (r : RetrievalResult) (t : MatchTier) (h : ∃ p ∈ acc, p.1 = t) :
    ∃ p ∈ (if acc.any (fun g => g.1 == r.match_tier) then
        acc.map (fun g => if g.1 == r.match_tier then (g.1, g.2 ++ [r]) else g)
      else acc ++ [(r.match_tier, [r])]), p.1 = t := by
  rcases h with ⟨p, hp, hpt⟩
  split
  · by_cases hgt : p.1 = r.match_tier
    · exact ⟨(p.1, p.2 ++ [r]), List.mem_map.mpr ⟨p, hp, by rw [if_pos (by simp [hgt])]⟩, hpt⟩
    · exact ⟨p, List.mem_map.mpr ⟨p, hp, by rw [if_neg (by simp [hgt])]⟩, hpt⟩
  · exact ⟨p, List.mem_append.mpr (Or.inl hp), hpt⟩

theorem groupByTier_step_self (acc : List (MatchTier × List RetrievalResult))
    (r : RetrievalResult) :
    ∃ p ∈ (if acc.any (fun g => g.1 == r.match_tier) then
        acc.map (fun g => if g.1 == r.match_tier then (g.1, g.2 ++ [r]) else g)
      else acc ++ [(r.match_tier, [r])]), p.1 = r.match_tier := by
  by_cases hany : acc.any (fun g => g.1 == r.match_tier) = true
  · rw [if_pos hany]
    rcases List.any_eq_true.mp hany with ⟨g, hg, hgt⟩
    rw [beq_iff_eq] at hgt
    exact ⟨(g.1, g.2 ++ [r]), List.mem_map.mpr ⟨g, hg, by rw [if_pos (by simp [hgt])]⟩, hgt⟩
  · rw [if_neg hany]
    exact ⟨(r.match_tier, [r]), List.mem_append.mpr (Or.inr (by simp)), rfl⟩

theorem groupByTier_aux_keys (results : List RetrievalResult) (t : MatchTier) :
    ∀ (acc : List (MatchTier × List RetrievalResult)),
    ((∃ r ∈ results, r.match_tier = t) ∨ (∃ p ∈ acc, p.1 = t)) →
    ∃ p ∈ results.foldl (fun acc r =>
        if acc.any (fun g => g.1 == r.match_tier) then
          acc.map (fun g => if g.1 == r.match_tier then (g.1, g.2 ++ [r]) else g)
        else acc ++ [(r.match_tier, [r])]) acc, p.1 = t := by
  induction results with
  | nil =>
    intro acc h
    rcases h with ⟨r, hr, _⟩ | h
    · exact absurd hr (by simp)
    · exact h
  | cons r rs ih =>
    intro acc h
    apply ih
    rcases h with ⟨x, hx, hxt⟩ | h
    · rcases List.mem_cons.mp hx with hx | hx
      · subst hx
        right
        exact hxt ▸ groupByTier_step_self acc x
      · exact Or.inl ⟨x, hx, hxt⟩
    · exact Or.inr (groupByTier_step_keys acc r t h)

theorem groupByTier_keys (results : List RetrievalResult) (t : MatchTier)
    (h : ∃ r ∈ results, r.match_tier = t) :
    ∃ p ∈ groupByTier results, p.1 = t :=
  groupByTier_aux_keys results t [] (Or.inl h)

theorem guaranteeInner_fold_mono (top_k : Nat) (t : MatchTier)
    (rs : List RetrievalResult) :
    ∀ (s2 : List RetrievalResult × List (MatchTier × Nat)),
    ∀ x ∈ s2.1, x ∈ (rs.foldl (guaranteeInner top_k t) s2).1 := by
  induction rs with
  | nil => intro s2 x hx; exact hx
  | cons r rest ih =>
    intro s2 x hx
    apply ih (guaranteeInner top_k t s2 r)
    rw [guaranteeInner]
    split
    · exact List.mem_append.mpr (Or.inl hx)
    · exact hx

theorem guaranteeInner_fold_len (top_k : Nat) (t : MatchTier)
    (rs : List RetrievalResult) :
    ∀ (s2 : List RetrievalResult × List (MatchTier × Nat)),
    (rs.foldl (guaranteeInner top_k t) s2).1.length ≤ s2.1.length + rs.length := by
  induction rs with
  | nil => intro s2; simp
  | cons r rest ih =>
    intro s2
    calc (rest.foldl (guaranteeInner top_k t) (guaranteeInner top_k t s2 r)).1.length
        ≤ (guaranteeInner top_k t s2 r).1.length + rest.length := ih _
      _ ≤ s2.1.length + (r :: rest).length := by
          rw [guaranteeInner]
          split <;>
            (simp only [List.length_append, List.length_cons, List.length_nil] <;> omega)

theorem guaranteeInner_fold_progress (top_k : Nat) (t : MatchTier)
    (r : RetrievalResult) (rest : List RetrievalResult)
    (s2 : List RetrievalResult × List (MatchTier × Nat))
    (hlen : s2.1.length < top_k) :
    r ∈ ((r :: rest).foldl (guaranteeInner top_k t) s2).1 := by
  show r ∈ (rest.foldl (guaranteeInner top_k t) (guaranteeInner top_k t s2 r)).1
  apply guaranteeInner_fold_mono
  rw [guaranteeInner, if_pos hlen]
  exact List.mem_append.mpr (Or.inr (by simp))

theorem guaranteeStep_fold_spec (top_k min_per_tier : Nat) (hm : 1 ≤ min_per_tier)
    (gs : List (MatchTier × List RetrievalResult)) :
    ∀ (s : List RetrievalResult × List (MatchTier × Nat)),
    s.1.length + min_per_tier * gs.length ≤ top_k →
    (∀ x ∈ s.1, x ∈ (gs.foldl (guaranteeStep top_k min_per_tier) s).1)
    ∧ (gs.foldl (guaranteeStep top_k min_per_tier) s).1.length ≤
        s.1.length + min_per_tier * gs.length
    ∧ ∀ g ∈ gs, g.2 ≠ [] →
        ∃ r ∈ g.2, r ∈ (gs.foldl (guaranteeStep top_k min_per_tier) s).1 := by
  induction gs with
  | nil =>
    intro s _
    refine ⟨fun x hx => hx, by simp, ?_⟩
    intro g hg
    exact absurd hg (by simp)
  | cons g gs ih =>
    intro s hbound
    have hslen : s.1.length < top_k := by
      have : 1 * 1 ≤ min_per_tier * (g :: gs).length := by
        apply Nat.mul_le_mul hm
        simp
      omega
    have hstep_len : (guaranteeStep top_k min_per_tier s g).1.length ≤
        s.1.length + min_per_tier := by
      calc (guaranteeStep top_k min_per_tier s g).1.length
          ≤ s.1.length + (g.2.take min_per_tier).length :=
            guaranteeInner_fold_len top_k g.1 _ s
        _ ≤ s.1.length + min_per_tier := by
            have := List.length_take_le min_per_tier g.2
            omega
    have hbound' : (guaranteeStep top_k min_per_tier s g).1.length +
        min_per_tier * gs.length ≤ top_k := by
      have : min_per_tier * (g :: gs).length =
          min_per_tier + min_per_tier * gs.length := by
        simp only [List.length_cons]
        ring
      omega
    rcases ih (guaranteeStep top_k min_per_tier s g) hbound' with ⟨ihmono, ihlen, ihcov⟩
    refine ⟨?_, ?_, ?_⟩
    · intro x hx
      apply ihmono
      exact guaranteeInner_fold_mono top_k g.1 _ s x hx
    · calc (gs.foldl (guaranteeStep top_k min_per_tier)
            (guaranteeStep top_k min_per_tier s g)).1.length
          ≤ (guaranteeStep top_k min_per_tier s g).1.length +
              min_per_tier * gs.length := ihlen
        _ ≤ s.1.length + min_per_tier * (g :: gs).length := by
            have : min_per_tier * (g :: gs).length =
                min_per_tier + min_per_tier * gs.length := by
              simp only [List.length_cons]
              ring
            omega
    · intro g2 hg2 hne
      rcases List.mem_cons.mp hg2 with hg2 | hg2
      · subst hg2
        obtain ⟨r, rest, hg⟩ : ∃ r rest, g2.2 = r :: rest := by
          cases hx : g2.2 with
          | nil => exact absurd hx hne
          | cons a l => exact ⟨a, l, rfl⟩
        refine ⟨r, by rw [hg]; simp, ?_⟩
        apply ihmono
        show r ∈ (guaranteeStep top_k min_per_tier s g2).1
        rw [guaranteeStep, hg]
        have htake : (r :: rest).take min_per_tier =
            r :: rest.take (min_per_tier - 1) := by
          match min_per_tier, hm with
          | m + 1, _ => simp
        rw [htake]
        exact guaranteeInner_fold_progress top_k g2.1 r _ s hslen
      · exact ihcov g2 hg2 hne

theorem fillLoop_mono (top_k : Nat) (rest : List RetrievalResult) :
    ∀ (final : List RetrievalResult), ∀ x ∈ final, x ∈ fillLoop top_k final rest := by
  induction rest with
  | nil => intro final x hx; exact hx
  | cons r rest ih =>
    intro final x hx
    rw [fillLoop]
    split
    · exact hx
    · split
      · exact ih final x hx
      · exact ih (final ++ [r]) x (List.mem_append.mpr (Or.inl hx))

/-- C7: `rerank_with_tier_preservation` guarantees tier diversity: whenever
`min_per_tier ≥ 1` and `min_per_tier` slots per represented tier fit into
`top_k` (in particular `min_per_tier = 1`, `top_k = 4` with at most four
tiers), every tier represented in the input is represented in the output;
a tier with fewer than `min_per_tier` candidates simply contributes what it
has, without error. -/
theorem claim_C7_tier_diversity (score : String → String → Rat) (q : String)
    (results : List RetrievalResult) (top_k min_per_tier : Nat)
    (hm : 1 ≤ min_per_tier)
    (hb : min_per_tier * (groupByTier results).length ≤ top_k)
    (t : MatchTier) (ht : ∃ r ∈ results, r.match_tier = t) :
    ∃ r2 ∈ (rerank_with_tier_preservation score q results top_k min_per_tier).2,
      r2.match_tier = t := by
  have hne : results ≠ [] := by
    rcases ht with ⟨r, hr, _⟩
    intro hc
    rw [hc] at hr
    exact absurd hr (by simp)
  rcases groupByTier_keys results t ht with ⟨p, hp, hpt⟩
  have hinv := groupByTier_inv results p hp
  have hpne : rerankTierGroup score q p.2 ≠ [] := by
    intro hc
    have := (sortByDesc_perm rerankScoreKey (p.2.map (setRerankScore score q))).length_eq
    rw [rerankTierGroup] at hc
    rw [hc] at this
    simp only [List.length_nil, List.length_map] at this
    exact hinv.2 (List.length_eq_zero.mp this.symm)
  have hmemr : (p.1, rerankTierGroup score q p.2) ∈
      rerankedTiers score q (groupByTier results) :=
    List.mem_map.mpr ⟨p, hp, rfl⟩
  have hblen : min_per_tier * (rerankedTiers score q (groupByTier results)).length ≤
      top_k := by
    rw [rerankedTiers, List.length_map]
    exact hb
  have hspec := guaranteeStep_fold_spec top_k min_per_tier hm
    (rerankedTiers score q (groupByTier results))
    ([], (rerankedTiers score q (groupByTier results)).map (fun g => (g.1, 0)))
    (by simpa using hblen)
  rcases hspec.2.2 (p.1, rerankTierGroup score q p.2) hmemr hpne with ⟨r2, hr2g, hr2⟩
  have hr2tier : r2.match_tier = t := by
    have : r2 ∈ sortByDesc rerankScoreKey (p.2.map (setRerankScore score q)) := hr2g
    rcases List.mem_map.mp (mem_sortByDesc.mp this) with ⟨y, hy, hye⟩
    rw [← hye]
    show (setRerankScore score q y).match_tier = t
    rw [show (setRerankScore score q y).match_tier = y.match_tier from rfl]
    rw [hinv.1 y hy, hpt]
  refine ⟨r2, ?_, hr2tier⟩
  rw [rerank_with_tier_preservation, if_neg hne]
  simp only []
  rw [mem_sortByDesc]
  apply fillLoop_mono
  show r2 ∈ (guaranteePhase top_k min_per_tier
    (rerankedTiers score q (groupByTier results))).1
  rw [guaranteePhase]
  exact hr2

/-- Witness for C7: four results spanning all four tiers, `top_k = 4`,
`min_per_tier = 1`; the SEMANTIC tier is represented in the output. -/
theorem claim_C7_witness :
    1 ≤ 1 ∧
    1 * (groupByTier
      [⟨"a", "A", [], 0, 0, 0, 0, 0, 0, MatchTier.EQUIPMENT_SPECIFIC⟩,
        ⟨"b", "B", [], 0, 0, 0, 0, 0, 0, MatchTier.EQUIPMENT_TYPE⟩,
        ⟨"c", "C", [], 0, 0, 0, 0, 0, 0, MatchTier.GENERIC⟩,
        ⟨"d", "D", [], 0, 0, 0, 0, 0, 0, MatchTier.SEMANTIC⟩]).length ≤ 4 ∧
    (∃ r ∈ ([⟨"a", "A", [], 0, 0, 0, 0, 0, 0, MatchTier.EQUIPMENT_SPECIFIC⟩,
        ⟨"b", "B", [], 0, 0, 0, 0, 0, 0, MatchTier.EQUIPMENT_TYPE⟩,
        ⟨"c", "C", [], 0, 0, 0, 0, 0, 0, MatchTier.GENERIC⟩,
        ⟨"d", "D", [], 0, 0, 0, 0, 0, 0, MatchTier.SEMANTIC⟩] :
        List RetrievalResult), r.match_tier = MatchTier.SEMANTIC) ∧
    ∃ r2 ∈ (rerank_with_tier_preservation (fun _ _ => 0) "q"
      [⟨"a", "A", [], 0, 0, 0, 0, 0, 0, MatchTier.EQUIPMENT_SPECIFIC⟩,
        ⟨"b", "B", [], 0, 0, 0, 0, 0, 0, MatchTier.EQUIPMENT_TYPE⟩,
        ⟨"c", "C", [], 0, 0, 0, 0, 0, 0, MatchTier.GENERIC⟩,
        ⟨"d", "D", [], 0, 0, 0, 0, 0, 0, MatchTier.SEMANTIC⟩] 4 1).2,
      r2.match_tier = MatchTier.SEMANTIC :=
  ⟨le_rfl, by decide, by decide,
    claim_C7_tier_diversity (fun _ _ => 0) "q"
      [⟨"a", "A", [], 0, 0, 0, 0, 0, 0, MatchTier.EQUIPMENT_SPECIFIC⟩,
        ⟨"b", "B", [], 0, 0, 0, 0, 0, 0, MatchTier.EQUIPMENT_TYPE⟩,
        ⟨"c", "C", [], 0, 0, 0, 0, 0, 0, MatchTier.GENERIC⟩,
        ⟨"d", "D", [], 0, 0, 0, 0, 0, 0, MatchTier.SEMANTIC⟩] 4 1 le_rfl
      (by decide) MatchTier.SEMANTIC (by decide)⟩

theorem find?_map_update (m : Metadata) (k : String) (v : MetaVal) :
    ((m.map (fun p => if p.1 == k then (k, v) else p)).find? (fun p => p.1 == k)) =
      if m.any (fun p => p.1 == k) then some (k, v) else none := by
  induction m with
  | nil => rfl
  | cons a m ih =>
    simp only [List.map_cons, List.any_cons]
    by_cases ha : a.1 = k
    · rw [if_pos (by simp [ha])]
      rw [List.find?_cons_of_pos _ (by simp)]
      simp [ha]
    · rw [if_neg (by simp [ha])]
      rw [List.find?_cons_of_neg _ (by simp [ha])]
      rw [ih]
      have hfa : (a.1 == k) = false := by simp [ha]
      simp only [hfa, Bool.false_or]

theorem find?_map_update_ne (m : Metadata) (k k2 : String) (v : MetaVal)
    (h : k2 ≠ k) :
    ((m.map (fun p => if p.1 == k then (k, v) else p)).find? (fun p => p.1 == k2)) =
      m.find? (fun p => p.1 == k2) := by
  induction m with
  | nil => rfl
  | cons a m ih =>
    simp only [List.map_cons]
    by_cases ha : a.1 = k
    · rw [if_pos (by simp [ha])]
      rw [List.find?_cons_of_neg _ (by simp [Ne.symm h]),
        List.find?_cons_of_neg _ (by simp only [ha, beq_iff_eq]; exact Ne.symm h)]
      exact ih
    · rw [if_neg (by simp [ha])]
      by_cases ha2 : a.1 = k2
      · rw [List.find?_cons_of_pos _ (by simp [ha2]),
          List.find?_cons_of_pos _ (by simp [ha2])]
      · rw [List.find?_cons_of_neg _ (by simp [ha2]),
          List.find?_cons_of_neg _ (by simp [ha2])]
        exact ih

theorem mget_minsert_self (m : Metadata) (k : String) (v : MetaVal) :
    mget (minsert m k v) k = some v := by
  rw [minsert]
  by_cases hany : m.any (fun p => p.1 == k) = true
  · rw [if_pos hany, mget, find?_map_update, if_pos hany]
    rfl
  · rw [if_neg hany, mget]
    have hnone : m.find? (fun p => p.1 == k) = none := by
      rw [List.find?_eq_none]
      intro x hx
      rw [Bool.not_eq_true, List.any_eq_false] at hany
      exact hany x hx
    rw [List.find?_append, hnone]
    simp

theorem mget_minsert_ne (m : Metadata) (k k2 : String) (v : MetaVal)
    (h : k2 ≠ k) : mget (minsert m k v) k2 = mget m k2 := by
  rw [minsert]
  split
  · rw [mget, find?_map_update_ne m k k2 v h]
    rfl
  · rw [mget, mget, List.find?_append]
    have hone : ([(k, v)].find? (fun p => p.1 == k2)) = none := by
      rw [List.find?_eq_none]
      intro x hx
      simp only [List.mem_singleton] at hx
      subst hx
      simp [Ne.symm h]
    rw [hone]
    cases m.find? (fun p => p.1 == k2) <;> simp

theorem listMin_le (xs : List Rat) : ∀ (x y : Rat), y = x ∨ y ∈ xs → listMin x xs ≤ y := by
  induction xs with
  | nil =>
    intro x y hy
    rcases hy with hy | hy
    · rw [hy]
      exact le_rfl
    · exact absurd hy (by simp)
  | cons a xs ih =>
    intro x y hy
    show listMin (min x a) xs ≤ y
    rcases hy with hy | hy
    · rw [hy]
      exact le_trans (ih (min x a) (min x a) (Or.inl rfl)) (min_le_left x a)
    · rcases List.mem_cons.mp hy with hy | hy
      · rw [hy]
        exact le_trans (ih (min x a) (min x a) (Or.inl rfl)) (min_le_right x a)
      · exact ih (min x a) y (Or.inr hy)

theorem le_listMax (xs : List Rat) : ∀ (x y : Rat), y = x ∨ y ∈ xs → y ≤ listMax x xs := by
  induction xs with
  | nil =>
    intro x y hy
    rcases hy with hy | hy
    · rw [hy]
      exact le_rfl
    · exact absurd hy (by simp)
  | cons a xs ih =>
    intro x y hy
    show y ≤ listMax (max x a) xs
    rcases hy with hy | hy
    · rw [hy]
      exact le_trans (le_max_left x a) (ih (max x a) (max x a) (Or.inl rfl))
    · rcases List.mem_cons.mp hy with hy | hy
      · rw [hy]
        exact le_trans (le_max_right x a) (ih (max x a) (max x a) (Or.inl rfl))
      · exact ih (max x a) y (Or.inr hy)

theorem mem_zipWith_map {α β : Type} (f : α → β → α) (g : α → β) :
    ∀ (l : List α) (x : α), x ∈ List.zipWith f l (l.map g) → ∃ r ∈ l, x = f r (g r) := by
  intro l
  induction l with
  | nil => intro x hx; exact absurd hx (by simp)
  | cons a l ih =>
    intro x hx
    simp only [List.map_cons, List.zipWith_cons_cons] at hx
    rcases List.mem_cons.mp hx with hx | hx
    · exact ⟨a, List.mem_cons_self a l, hx⟩
    · rcases ih x hx with ⟨r, hr, hre⟩
      exact ⟨r, List.mem_cons_of_mem a hr, hre⟩

theorem mem_zipWith_replicate {α β : Type} (f : α → β → α) (c : β) :
    ∀ (l : List α) (n : Nat) (x : α), x ∈ List.zipWith f l (List.replicate n c) →
      ∃ r ∈ l, x = f r c := by
  intro l
  induction l with
  | nil => intro n x hx; exact absurd hx (by simp)
  | cons a l ih =>
    intro n x hx
    match n with
    | 0 => exact absurd hx (by simp)
    | n + 1 =>
      simp only [List.replicate_succ, List.zipWith_cons_cons] at hx
      rcases List.mem_cons.mp hx with hx | hx
      · exact ⟨a, List.mem_cons_self a l, hx⟩
      · rcases ih n x hx with ⟨r, hr, hre⟩
        exact ⟨r, List.mem_cons_of_mem a hr, hre⟩

theorem listMin_mem (xs : List Rat) : ∀ x, listMin x xs = x ∨ listMin x xs ∈ xs := by
  induction xs with
  | nil => intro x; exact Or.inl rfl
  | cons a xs ih =>
    intro x
    show listMin (min x a) xs = x ∨ listMin (min x a) xs ∈ a :: xs
    rcases ih (min x a) with h | h
    · rcases min_choice x a with hm | hm
      · exact Or.inl (h.trans hm)
      · exact Or.inr (List.mem_cons.mpr (Or.inl (h.trans hm)))
    · exact Or.inr (List.mem_cons.mpr (Or.inr h))

theorem listMax_mem (xs : List Rat) : ∀ x, listMax x xs = x ∨ listMax x xs ∈ xs := by
  induction xs with
  | nil => intro x; exact Or.inl rfl
  | cons a xs ih =>
    intro x
    show listMax (max x a) xs = x ∨ listMax (max x a) xs ∈ a :: xs
    rcases ih (max x a) with h | h
    · rcases max_choice x a with hm | hm
      · exact Or.inl (h.trans hm)
      · exact Or.inr (List.mem_cons.mpr (Or.inl (h.trans hm)))
    · exact Or.inr (List.mem_cons.mpr (Or.inr h))

theorem key_setBothScores (score : String → String → Rat) (q : String)
    (r : RetrievalResult) (sn : Rat) :
    rerankScoreKey (setBothScores score q r sn) = sn := by
  have h : mget (setBothScores score q r sn).metadata "rerank_score" =
      some (MetaVal.q sn) := mget_minsert_self _ _ _
  simp only [rerankScoreKey, h]

theorem content_setBothScores (score : String → String → Rat) (q : String)
    (r : RetrievalResult) (sn : Rat) :
    (setBothScores score q r sn).content = r.content := rfl

/-- C9: if every raw cross-encoder score in a non-empty reranking call is
equal (zero min-max range), every item's normalized score is 50 and no
division by zero occurs; otherwise the scores are min-max normalized into
the 0–100 range via `(s - min) / (max - min) * 100`. -/
theorem claim_C9_score_normalization (score : String → String → Rat) (q : String)
    (results : List RetrievalResult) (top_k : Nat) (hne : results ≠ []) :
    ((∀ r1 ∈ results, ∀ r2 ∈ results, score q r1.content = score q r2.content) →
      ∀ rr ∈ (rerankNormalize score q results top_k).1, rerankScoreKey rr = 50)
    ∧ ((∃ r1 ∈ results, ∃ r2 ∈ results, score q r1.content ≠ score q r2.content) →
      ∀ rr ∈ (rerankNormalize score q results top_k).1,
        rerankScoreKey rr = (score q rr.content - rawMin score q results) /
          (rawMax score q results - rawMin score q results) * 100
        ∧ 0 ≤ rerankScoreKey rr ∧ rerankScoreKey rr ≤ 100) := by
  obtain ⟨r0, rs, hres⟩ : ∃ r0 rs, results = r0 :: rs := by
    cases hx : results with
    | nil => exact absurd hx hne
    | cons a l => exact ⟨a, l, rfl⟩
  subst hres
  have hscore_mem : ∀ r ∈ r0 :: rs, score q r.content = score q r0.content ∨
      score q r.content ∈ rs.map (fun r => score q r.content) := by
    intro r hr
    rcases List.mem_cons.mp hr with hr | hr
    · exact Or.inl (by rw [hr])
    · exact Or.inr (List.mem_map_of_mem _ hr)
  have hmin_le : ∀ r ∈ r0 :: rs, rawMin score q (r0 :: rs) ≤ score q r.content := by
    intro r hr
    exact listMin_le _ _ _ (hscore_mem r hr)
  have hle_max : ∀ r ∈ r0 :: rs, score q r.content ≤ rawMax score q (r0 :: rs) := by
    intro r hr
    exact le_listMax _ _ _ (hscore_mem r hr)
  constructor
  · intro hall rr hrr
    have hminc : rawMin score q (r0 :: rs) = score q r0.content := by
      show listMin (score q r0.content) (rs.map (fun r => score q r.content)) =
        score q r0.content
      rcases listMin_mem (rs.map (fun r => score q r.content))
          (score q r0.content) with h | h
      · exact h
      · rcases List.mem_map.mp h with ⟨y, hy, hye⟩
        rw [← hye]
        exact hall y (List.mem_cons_of_mem r0 hy) r0 (List.mem_cons_self r0 rs)
    have hmaxc : rawMax score q (r0 :: rs) = score q r0.content := by
      show listMax (score q r0.content) (rs.map (fun r => score q r.content)) =
        score q r0.content
      rcases listMax_mem (rs.map (fun r => score q r.content))
          (score q r0.content) with h | h
      · exact h
      · rcases List.mem_map.mp h with ⟨y, hy, hye⟩
        rw [← hye]
        exact hall y (List.mem_cons_of_mem r0 hy) r0 (List.mem_cons_self r0 rs)
    have hrange : ¬ (rawMax score q (r0 :: rs) - rawMin score q (r0 :: rs) > 0) := by
      rw [hminc, hmaxc]
      simp
    rw [rerankNormalize] at hrr
    simp only [if_neg hrange] at hrr
    rcases mem_zipWith_replicate _ 50 (r0 :: rs) _ rr hrr with ⟨r, _, hre⟩
    rw [hre]
    exact key_setBothScores score q r 50
  · intro hdiff rr hrr
    have hrange : rawMax score q (r0 :: rs) - rawMin score q (r0 :: rs) > 0 := by
      rcases hdiff with ⟨r1, hr1, r2, hr2, hne12⟩
      have h1 := hmin_le r1 hr1
      have h2 := hle_max r1 hr1
      have h3 := hmin_le r2 hr2
      have h4 := hle_max r2 hr2
      by_contra hc
      push_neg at hc
      have : rawMax score q (r0 :: rs) ≤ rawMin score q (r0 :: rs) := by linarith
      exact hne12 (le_antisymm (by linarith) (by linarith))
    rw [rerankNormalize] at hrr
    simp only [if_pos hrange, List.map_map] at hrr
    rcases mem_zipWith_map _ _ (r0 :: rs) rr hrr with ⟨r, hrm, hre⟩
    simp only [Function.comp] at hre
    rw [hre, key_setBothScores, content_setBothScores]
    refine ⟨rfl, ?_, ?_⟩
    · apply mul_nonneg
      · apply div_nonneg
        · have := hmin_le r hrm
          linarith
        · linarith
      · norm_num
    · have hfrac : (score q r.content - rawMin score q (r0 :: rs)) /
          (rawMax score q (r0 :: rs) - rawMin score q (r0 :: rs)) ≤ 1 := by
        rw [div_le_one hrange]
        have := hle_max r hrm
        linarith
      have hnn : 0 ≤ (score q r.content - rawMin score q (r0 :: rs)) /
          (rawMax score q (r0 :: rs) - rawMin score q (r0 :: rs)) := by
        apply div_nonneg
        · have := hmin_le r hrm
          linarith
        · linarith
      nlinarith

/-- Witness for C9: two results with identical raw scores normalize to 50. -/
theorem claim_C9_witness :
    (([⟨"a", "A", [], 0, 0, 0, 0, 0, 0, MatchTier.SEMANTIC⟩,
        ⟨"b", "B", [], 0, 0, 0, 0, 0, 0, MatchTier.SEMANTIC⟩] :
        List RetrievalResult) ≠ []) ∧
    (∀ r1 ∈ ([⟨"a", "A", [], 0, 0, 0, 0, 0, 0, MatchTier.SEMANTIC⟩,
        ⟨"b", "B", [], 0, 0, 0, 0, 0, 0, MatchTier.SEMANTIC⟩] :
        List RetrievalResult),
      ∀ r2 ∈ ([⟨"a", "A", [], 0, 0, 0, 0, 0, 0, MatchTier.SEMANTIC⟩,
        ⟨"b", "B", [], 0, 0, 0, 0, 0, 0, MatchTier.SEMANTIC⟩] :
        List RetrievalResult),
      (fun (_ _ : String) => (7 : Rat)) "q" r1.content =
        (fun (_ _ : String) => (7 : Rat)) "q" r2.content) ∧
    ∀ rr ∈ (rerankNormalize (fun _ _ => 7) "q"
      [⟨"a", "A", [], 0, 0, 0, 0, 0, 0, MatchTier.SEMANTIC⟩,
        ⟨"b", "B", [], 0, 0, 0, 0, 0, 0, MatchTier.SEMANTIC⟩] 5).1,
      rerankScoreKey rr = 50 :=
  ⟨by decide, fun r1 _ r2 _ => rfl,
    (claim_C9_score_normalization (fun _ _ => 7) "q"
      [⟨"a", "A", [], 0, 0, 0, 0, 0, 0, MatchTier.SEMANTIC⟩,
        ⟨"b", "B", [], 0, 0, 0, 0, 0, 0, MatchTier.SEMANTIC⟩] 5 (by decide)).1
      (fun r1 _ r2 _ => rfl)⟩

theorem setBothScores_fields (score : String → String → Rat) (q : String)
    (r : RetrievalResult) (sn : Rat) :
    (setBothScores score q r sn).id = r.id ∧
    (setBothScores score q r sn).content = r.content ∧
    (setBothScores score q r sn).dense_score = r.dense_score ∧
    (setBothScores score q r sn).sparse_score = r.sparse_score ∧
    (setBothScores score q r sn).rrf_score = r.rrf_score ∧
    (setBothScores score q r sn).boosted_score = r.boosted_score ∧
    (setBothScores score q r sn).dense_rank = r.dense_rank ∧
    (setBothScores score q r sn).sparse_rank = r.sparse_rank ∧
    (setBothScores score q r sn).match_tier = r.match_tier ∧
    mget (setBothScores score q r sn).metadata "rerank_score_raw" =
      some (MetaVal.q (score q r.content)) ∧
    (∃ v, mget (setBothScores score q r sn).metadata "rerank_score" =
      some (MetaVal.q v)) ∧
    (∀ k2, k2 ≠ "rerank_score" → k2 ≠ "rerank_score_raw" →
      mget (setBothScores score q r sn).metadata k2 = mget r.metadata k2) := by
  refine ⟨rfl, rfl, rfl, rfl, rfl, rfl, rfl, rfl, rfl, ?_, ⟨sn, ?_⟩, ?_⟩
  · show mget (minsert (minsert r.metadata "rerank_score_raw"
      (MetaVal.q (score q r.content))) "rerank_score" (MetaVal.q sn))
      "rerank_score_raw" = some (MetaVal.q (score q r.content))
    rw [mget_minsert_ne _ _ _ _ (by decide)]
    exact mget_minsert_self _ _ _
  · exact mget_minsert_self _ _ _
  · intro k2 h1 h2
    show mget (minsert (minsert r.metadata "rerank_score_raw"
      (MetaVal.q (score q r.content))) "rerank_score" (MetaVal.q sn)) k2 =
      mget r.metadata k2
    rw [mget_minsert_ne _ _ _ _ h1, mget_minsert_ne _ _ _ _ h2]

/-- C10: all three reranking entry points mutate every input result in
place: each input — selected into the returned top-k or not — gets the key
`rerank_score` (and for the normalizing variant also `rerank_score_raw`)
written into its metadata mapping, while every other field (id, content,
scores, ranks, match_tier) and every other metadata key are left unchanged. -/
theorem claim_C10_in_place_mutation (score : String → String → Rat) (q : String)
    (results : List RetrievalResult) (top_k min_per_tier : Nat) :
    (Reranker.rerank score q results top_k).1 =
      results.map (setRerankScore score q)
    ∧ (rerank_with_tier_preservation score q results top_k min_per_tier).1 =
        results.map (setRerankScore score q)
    ∧ (∀ r : RetrievalResult,
        (setRerankScore score q r).id = r.id ∧
        (setRerankScore score q r).content = r.content ∧
        (setRerankScore score q r).dense_score = r.dense_score ∧
        (setRerankScore score q r).sparse_score = r.sparse_score ∧
        (setRerankScore score q r).rrf_score = r.rrf_score ∧
        (setRerankScore score q r).boosted_score = r.boosted_score ∧
        (setRerankScore score q r).dense_rank = r.dense_rank ∧
        (setRerankScore score q r).sparse_rank = r.sparse_rank ∧
        (setRerankScore score q r).match_tier = r.match_tier ∧
        mget (setRerankScore score q r).metadata "rerank_score" =
          some (MetaVal.q (score q r.content)) ∧
        (∀ k2, k2 ≠ "rerank_score" →
          mget (setRerankScore score q r).metadata k2 = mget r.metadata k2))
    ∧ (rerankNormalize score q results top_k).1.length = results.length
    ∧ (∀ rr ∈ (rerankNormalize score q results top_k).1, ∃ r ∈ results,
        rr.id = r.id ∧ rr.content = r.content ∧
        rr.dense_score = r.dense_score ∧ rr.sparse_score = r.sparse_score ∧
        rr.rrf_score = r.rrf_score ∧ rr.boosted_score = r.boosted_score ∧
        rr.dense_rank = r.dense_rank ∧ rr.sparse_rank = r.sparse_rank ∧
        rr.match_tier = r.match_tier ∧
        mget rr.metadata "rerank_score_raw" =
          some (MetaVal.q (score q r.content)) ∧
        (∃ v, mget rr.metadata "rerank_score" = some (MetaVal.q v)) ∧
        (∀ k2, k2 ≠ "rerank_score" → k2 ≠ "rerank_score_raw" →
          mget rr.metadata k2 = mget r.metadata k2)) := by
  refine ⟨?_, ?_, ?_, ?_, ?_⟩
  · by_cases h : results = []
    · simp [Reranker.rerank, h]
    · simp [Reranker.rerank, h]
  · by_cases h : results = []
    · simp [rerank_with_tier_preservation, h]
    · simp [rerank_with_tier_preservation, h]
  · intro r
    refine ⟨rfl, rfl, rfl, rfl, rfl, rfl, rfl, rfl, rfl, ?_, ?_⟩
    · exact mget_minsert_self _ _ _
    · intro k2 h1
      exact mget_minsert_ne _ _ _ _ h1
  · cases results with
    | nil => rfl
    | cons r0 rs =>
      rw [rerankNormalize]
      simp only [List.length_zipWith, List.length_map]
      split
      · simp
      · simp
  · intro rr hrr
    cases results with
    | nil => exact absurd hrr (by simp [rerankNormalize])
    | cons r0 rs =>
      rw [rerankNormalize] at hrr
      simp only [] at hrr
      split at hrr
      · rw [List.map_map] at hrr
        rcases mem_zipWith_map _ _ (r0 :: rs) rr hrr with ⟨r, hrm, hre⟩
        refine ⟨r, hrm, ?_⟩
        rw [hre]
        exact setBothScores_fields score q r _
      · rcases mem_zipWith_replicate _ 50 (r0 :: rs) _ rr hrr with ⟨r, hrm, hre⟩
        refine ⟨r, hrm, ?_⟩
        rw [hre]
        exact setBothScores_fields score q r 50

/-- Witness for C10 at a single-result call of each entry point. -/
theorem claim_C10_witness :
    (Reranker.rerank (fun _ _ => 0) "x"
        [⟨"a", "A", [], 0, 0, 0, 0, 0, 0, MatchTier.SEMANTIC⟩] 3).1 =
      ([⟨"a", "A", [], 0, 0, 0, 0, 0, 0, MatchTier.SEMANTIC⟩] :
        List RetrievalResult).map (setRerankScore (fun _ _ => 0) "x")
    ∧ (rerank_with_tier_preservation (fun _ _ => 0) "x"
        [⟨"a", "A", [], 0, 0, 0, 0, 0, 0, MatchTier.SEMANTIC⟩] 3 1).1 =
      ([⟨"a", "A", [], 0, 0, 0, 0, 0, 0, MatchTier.SEMANTIC⟩] :
        List RetrievalResult).map (setRerankScore (fun _ _ => 0) "x")
    ∧ (setRerankScore (fun _ _ => 0) "x"
        ⟨"a", "A", [], 0, 0, 0, 0, 0, 0, MatchTier.SEMANTIC⟩).match_tier =
      (⟨"a", "A", [], 0, 0, 0, 0, 0, 0, MatchTier.SEMANTIC⟩ :
        RetrievalResult).match_tier
    ∧ ("other" ≠ "rerank_score")
    ∧ mget (setRerankScore (fun _ _ => 0) "x"
        ⟨"a", "A", [], 0, 0, 0, 0, 0, 0, MatchTier.SEMANTIC⟩).metadata "other" =
      mget ((⟨"a", "A", [], 0, 0, 0, 0, 0, 0, MatchTier.SEMANTIC⟩ :
        RetrievalResult)).metadata "other"
    ∧ (rerankNormalize (fun _ _ => 0) "x"
        [⟨"a", "A", [], 0, 0, 0, 0, 0, 0, MatchTier.SEMANTIC⟩] 3).1.length =
      ([⟨"a", "A", [], 0, 0, 0, 0, 0, 0, MatchTier.SEMANTIC⟩] :
        List RetrievalResult).length
    ∧ (⟨"a", "A", [("rerank_score_raw", MetaVal.q 0), ("rerank_score", MetaVal.q 50)],
        0, 0, 0, 0, 0, 0, MatchTier.SEMANTIC⟩ : RetrievalResult) ∈
      (rerankNormalize (fun _ _ => 0) "x"
        [⟨"a", "A", [], 0, 0, 0, 0, 0, 0, MatchTier.SEMANTIC⟩] 3).1
    ∧ ∃ r ∈ ([⟨"a", "A", [], 0, 0, 0, 0, 0, 0, MatchTier.SEMANTIC⟩] :
        List RetrievalResult),
      (⟨"a", "A", [("rerank_score_raw", MetaVal.q 0), ("rerank_score", MetaVal.q 50)],
        0, 0, 0, 0, 0, 0, MatchTier.SEMANTIC⟩ : RetrievalResult).id = r.id ∧
      (⟨"a", "A", [("rerank_score_raw", MetaVal.q 0), ("rerank_score", MetaVal.q 50)],
        0, 0, 0, 0, 0, 0, MatchTier.SEMANTIC⟩ : RetrievalResult).content = r.content ∧
      (⟨"a", "A", [("rerank_score_raw", MetaVal.q 0), ("rerank_score", MetaVal.q 50)],
        0, 0, 0, 0, 0, 0, MatchTier.SEMANTIC⟩ :
        RetrievalResult).dense_score = r.dense_score ∧
      (⟨"a", "A", [("rerank_score_raw", MetaVal.q 0), ("rerank_score", MetaVal.q 50)],
        0, 0, 0, 0, 0, 0, MatchTier.SEMANTIC⟩ :
        RetrievalResult).sparse_score = r.sparse_score ∧
      (⟨"a", "A", [("rerank_score_raw", MetaVal.q 0), ("rerank_score", MetaVal.q 50)],
        0, 0, 0, 0, 0, 0, MatchTier.SEMANTIC⟩ :
        RetrievalResult).rrf_score = r.rrf_score ∧
      (⟨"a", "A", [("rerank_score_raw", MetaVal.q 0), ("rerank_score", MetaVal.q 50)],
        0, 0, 0, 0, 0, 0, MatchTier.SEMANTIC⟩ :
        RetrievalResult).boosted_score = r.boosted_score ∧
      (⟨"a", "A", [("rerank_score_raw", MetaVal.q 0), ("rerank_score", MetaVal.q 50)],
        0, 0, 0, 0, 0, 0, MatchTier.SEMANTIC⟩ :
        RetrievalResult).dense_rank = r.dense_rank ∧
      (⟨"a", "A", [("rerank_score_raw", MetaVal.q 0), ("rerank_score", MetaVal.q 50)],
        0, 0, 0, 0, 0, 0, MatchTier.SEMANTIC⟩ :
        RetrievalResult).sparse_rank = r.sparse_rank ∧
      (⟨"a", "A", [("rerank_score_raw", MetaVal.q 0), ("rerank_score", MetaVal.q 50)],
        0, 0, 0, 0, 0, 0, MatchTier.SEMANTIC⟩ :
        RetrievalResult).match_tier = r.match_tier ∧
      mget (⟨"a", "A", [("rerank_score_raw", MetaVal.q 0),
        ("rerank_score", MetaVal.q 50)], 0, 0, 0, 0, 0, 0, MatchTier.SEMANTIC⟩ :
        RetrievalResult).metadata "rerank_score_raw" =
        some (MetaVal.q ((fun (_ _ : String) => (0 : Rat)) "x" r.content)) ∧
      (∃ v, mget (⟨"a", "A", [("rerank_score_raw", MetaVal.q 0),
        ("rerank_score", MetaVal.q 50)], 0, 0, 0, 0, 0, 0, MatchTier.SEMANTIC⟩ :
        RetrievalResult).metadata "rerank_score" = some (MetaVal.q v)) ∧
      (∀ k2, k2 ≠ "rerank_score" → k2 ≠ "rerank_score_raw" →
        mget (⟨"a", "A", [("rerank_score_raw", MetaVal.q 0),
          ("rerank_score", MetaVal.q 50)], 0, 0, 0, 0, 0, 0,
          MatchTier.SEMANTIC⟩ : RetrievalResult).metadata k2 =
          mget r.metadata k2) := by
  have hthm := claim_C10_in_place_mutation (fun _ _ => 0) "x"
    [⟨"a", "A", [], 0, 0, 0, 0, 0, 0, MatchTier.SEMANTIC⟩] 3 1
  have hmem : (⟨"a", "A", [("rerank_score_raw", MetaVal.q 0),
      ("rerank_score", MetaVal.q 50)], 0, 0, 0, 0, 0, 0, MatchTier.SEMANTIC⟩ :
      RetrievalResult) ∈ (rerankNormalize (fun _ _ => 0) "x"
      [⟨"a", "A", [], 0, 0, 0, 0, 0, 0, MatchTier.SEMANTIC⟩] 3).1 := by
    norm_num [rerankNormalize, rawMin, rawMax, listMin, listMax, setBothScores,
      minsert, mget]
    rw [if_neg (by decide : ¬("rerank_score_raw" = "rerank_score"))]
  refine ⟨hthm.1, hthm.2.1, ?_, by decide, ?_, hthm.2.2.2.1, hmem,
    hthm.2.2.2.2 _ hmem⟩
  · exact (hthm.2.2.1 ⟨"a", "A", [], 0, 0, 0, 0, 0, 0,
      MatchTier.SEMANTIC⟩).2.2.2.2.2.2.2.2.1
  · exact (hthm.2.2.1 ⟨"a", "A", [], 0, 0, 0, 0, 0, 0,
      MatchTier.SEMANTIC⟩).2.2.2.2.2.2.2.2.2.2 "other" (by decide)
